import Mathlib

/-!
# Conversational agent: query orchestration and write buffering

A shallow embedding of `internal/agents/agent_utils.go` and
`internal/agents/agent_query.go` (package `agents`), followed by theorems
about the chunker, the deduplicator, the retry wrapper, the write buffer
and its flush and sync, the thread-memory registry and the query driver.

Conventions of the embedding.

* A Go `string` is a Lean `String` (a sequence of code points; byte strings
  that are not valid UTF-8 are outside the model); a Go slice is a `List`;
  Go `int` values are `Int`.  The only `int` arithmetic in the embedded code is
  `i + maxWords` in `ChunkContent`; when `maxWords ≥ 1` the loop variable
  satisfies `i = 0` or `maxWords ≤ i < len(words)`, so the sum stays far
  below `2^63` and wrap-around cannot occur.
* A loop whose trip count is not bounded by its code takes a fuel argument
  and reports `Res.outOfFuel` when the fuel is used up; a run-time panic is
  `Res.panicked`.
* Calls that leave the process (similarity search, the LLM chain, the
  vector store's batch-add, the clock) are oracles: their outcomes are
  inputs of the embedded function.
* The mutexes are not part of the state: every operation is embedded as one
  atomic step on the `AgentManager` state, and the goroutine started by
  `addToBuffer` is represented by the flag "a flush was triggered".  The
  order in which an operation locks, unlocks and makes its blocking calls is
  given separately, by its sequence of events.
-/

namespace ConversationalAgent

/-! ## Results of running Go code -/

/-- Outcome of running a piece of Go code: it returned, it panicked, or the
model ran out of fuel before the code returned. -/
inductive Res (α : Type) where
  | done (a : α)
  | panicked
  | outOfFuel
  deriving DecidableEq, Repr

/-- Go `error` values: `errors.New(msg)` and `fmt.Errorf(pfx + "%w", cause)`. -/
inductive GoError where
  | new (msg : String)
  | wrap (pfx : String) (cause : GoError)
  deriving DecidableEq, Repr

/-- The method `Error()` of an error value. -/
def GoError.Error : GoError → String
  | .new msg => msg
  | .wrap pfx cause => pfx ++ cause.Error

/-- The function `errors.Unwrap`. -/
def GoError.Unwrap : GoError → Option GoError
  | .new _ => none
  | .wrap _ cause => some cause

/-! ## Strings: `strings.Fields` and `strings.Join` -/

/-- Go's `unicode.IsSpace`: the code points with the White_Space property. -/
def isSpace (c : Char) : Bool :=
  let n := c.toNat
  (9 ≤ n && n ≤ 13) || n == 32 || n == 0x85 || n == 0xA0 || n == 0x1680 ||
  (0x2000 ≤ n && n ≤ 0x200A) || n == 0x2028 || n == 0x2029 || n == 0x202F ||
  n == 0x205F || n == 0x3000

/-- The scanner of `strings.Fields`: `cur` is the field being read (empty
when the scanner is between fields), the second argument is the unread
input. -/
def fieldsAux : List Char → List Char → List String
  | cur, [] => if cur.isEmpty then [] else [String.mk cur]
  | cur, c :: cs =>
    if isSpace c then
      if cur.isEmpty then fieldsAux [] cs else String.mk cur :: fieldsAux [] cs
    else fieldsAux (cur ++ [c]) cs

/-- Go's `strings.Fields`: the maximal runs of non-space characters of `s`,
in order. -/
def Fields (s : String) : List String :=
  fieldsAux [] s.data

/-- Go's `strings.Join(elems, sep)`. -/
def Join : List String → String → String
  | [], _ => ""
  | [a], _ => a
  | a :: b :: rest, sep => a ++ sep ++ Join (b :: rest) sep

/-- The slice expression `xs[lo:hi]`: it panics (`none`) unless
`0 ≤ lo ≤ hi ≤ len(xs)`. -/
def sliceRange {α : Type} (xs : List α) (lo hi : Int) : Option (List α) :=
  if 0 ≤ lo ∧ lo ≤ hi ∧ hi ≤ (xs.length : Int) then
    some ((xs.drop lo.toNat).take (hi.toNat - lo.toNat))
  else none

/-! ## The chunker -/

/-- The `for i := 0; i < len(words); i += maxWords` loop of `ChunkContent`,
entered with loop variable `i` and the chunks appended so far. -/
def chunkLoop (words : List String) (maxWords : Int) :
    Nat → Int → List String → Res (List String)
  | 0, _, _ => .outOfFuel
  | fuel + 1, i, chunks =>
    if i < (words.length : Int) then
      let end0 := i + maxWords
      let end1 := if end0 > (words.length : Int) then (words.length : Int) else end0
      match sliceRange words i end1 with
      | none => .panicked
      | some ws => chunkLoop words maxWords fuel (i + maxWords) (chunks ++ [Join ws " "])
    else .done chunks

/-- The function `ChunkContent(content, maxWords)`, run with `fuel` loop
iterations available. -/
def ChunkContent (fuel : Nat) (content : String) (maxWords : Int) : Res (List String) :=
  chunkLoop (Fields content) maxWords fuel 0 []

/-- Number of whitespace-delimited words of a string. -/
def wordCount (s : String) : Nat :=
  (Fields s).length

/-! ## Maps and documents -/

/-- A Go map with string keys, as the list of its entries; every key
occurs at most once in a map built with `mapSet`. -/
abbrev GoMap (β : Type) := List (String × β)

/-- The lookup `v, ok := m[key]`. -/
def mapGet {β : Type} : GoMap β → String → Option β
  | [], _ => none
  | (k, v) :: rest, key => if k = key then some v else mapGet rest key

/-- The assignment `m[key] = v`. -/
def mapSet {β : Type} : GoMap β → String → β → GoMap β
  | [], key, v => [(key, v)]
  | (k0, v0) :: rest, key, v =>
    if k0 = key then (key, v) :: rest else (k0, v0) :: mapSet rest key v

/-- A value of Go type `any`: a string, or a value of another dynamic type
(kept as the text `fmt` prints for it). -/
inductive AnyVal where
  | str (s : String)
  | other (shown : String)
  deriving DecidableEq, Repr

/-- The type assertion `v.(string)` with its `ok` result. -/
def AnyVal.asString : AnyVal → Option String
  | .str s => some s
  | .other _ => none

/-- The type `schema.Document`: `Metadata` is `none` for a nil map.  The
`Score` field is never read or written by the embedded code and is left
out. -/
structure Document where
  PageContent : String
  Metadata : Option (GoMap AnyVal)
  deriving DecidableEq, Repr

/-! ## Chat messages and conversation buffers -/

/-- The type `llms.ChatMessageType`. -/
inductive ChatMessageType where
  | AI | Human | System | Generic | Function | Tool
  deriving DecidableEq, Repr

/-- A chat message: what `GetType()` and `GetContent()` return. -/
structure ChatMessage where
  msgType : ChatMessageType
  content : String
  deriving DecidableEq, Repr

/-- The type `memory.ConversationBuffer`, with the fields the embedded code
sets or reads. -/
structure ConversationBuffer where
  MemoryKey : String
  ReturnMessages : Bool
  ChatHistory : List ChatMessage
  deriving DecidableEq, Repr

/-- The constructor `memory.NewConversationBuffer(WithMemoryKey(key),
WithReturnMessages(ret))`: a buffer with an empty chat history. -/
def NewConversationBuffer (key : String) (ret : Bool) : ConversationBuffer :=
  ⟨key, ret, []⟩

/-- The method `ConversationBuffer.SaveContext` as `Query` calls it: it
appends the input as a human message and the response as an AI message. -/
def ConversationBuffer.SaveContext (m : ConversationBuffer) (input response : String) :
    ConversationBuffer :=
  { m with ChatHistory := m.ChatHistory ++ [⟨.Human, input⟩, ⟨.AI, response⟩] }

/-! ## The vector store and the agent manager -/

/-- One call of the vector store's batch-add: the documents and the
namespace option (`none` when no `WithNameSpace` option is passed). -/
structure AddCall where
  docs : List Document
  nameSpace : Option String
  deriving DecidableEq, Repr

/-- The vector store as the agent manager sees it.  `search query k ns` is
the outcome of a similarity search, `addOutcome n` is the error of the
batch-add call number `n` (counted from 0, `none` for success), and
`addCalls` records the batch-add calls made so far. -/
structure VectorStore where
  search : String → Nat → Option String → List Document × Option GoError
  addOutcome : Nat → Option GoError
  addCalls : List AddCall

/-- The method `VectorStore.AddDocuments(ctx, docs, opts...)`: the call is
recorded and its outcome is the next one of the store. -/
def VectorStore.AddDocuments (vs : VectorStore) (docs : List Document)
    (ns : Option String) : VectorStore × Option GoError :=
  ({ vs with addCalls := vs.addCalls ++ [⟨docs, ns⟩] }, vs.addOutcome vs.addCalls.length)

/-- The type `AgentManager`.  `AgentMemory` maps a thread id to a pointer,
and `heap` holds the conversation buffers the pointers refer to (a pointer
is an index into `heap`).  `LLMChain` gives the outcome of `chains.Call`
for a context string: an error or the output map. -/
structure AgentManager where
  VectorStore : VectorStore
  LLMChain : String → Except GoError (GoMap AnyVal)
  AgentMemory : GoMap Nat
  heap : List ConversationBuffer
  messageBuffer : List Document
  maxBufferMessages : Int

/-- The function `GetThreadMemory`: the registered buffer of the thread, or
a new empty buffer that it registers. -/
def GetThreadMemory (am : AgentManager) (threadID : String) : AgentManager × Nat :=
  match mapGet am.AgentMemory threadID with
  | some mem => (am, mem)
  | none =>
    let newMemory := NewConversationBuffer ("thread:" ++ threadID) false
    ({ am with
        heap := am.heap ++ [newMemory]
        AgentMemory := mapSet am.AgentMemory threadID am.heap.length },
      am.heap.length)

/-- The function `formatMessages`: one role/content map per message. -/
def formatMessages (messages : List ChatMessage) : List (GoMap String) :=
  messages.foldl
    (fun formattedMessages msg =>
      let role := if msg.msgType = .AI then "ai" else "user"
      formattedMessages ++ [[("role", role), ("content", msg.content)]])
    []

/-- The chat history of a thread as a caller reads it: the messages of the
buffer `GetThreadMemory` returns for the thread. -/
def threadHistory (am : AgentManager) (threadID : String) : List ChatMessage :=
  let (am1, mem) := GetThreadMemory am threadID
  match am1.heap.get? mem with
  | some buf => buf.ChatHistory
  | none => []

/-! ## Deduplication -/

/-- The loop of `deduplicateDocuments`, with the `seen` map and the
documents kept so far. -/
def dedupLoop : GoMap Bool → List Document → List Document → List Document
  | _, uniqueDocs, [] => uniqueDocs
  | seen, uniqueDocs, doc :: rest =>
    if (mapGet seen doc.PageContent).isSome then dedupLoop seen uniqueDocs rest
    else dedupLoop (mapSet seen doc.PageContent true) (uniqueDocs ++ [doc]) rest

/-- The function `deduplicateDocuments`. -/
def deduplicateDocuments (docs : List Document) : List Document :=
  dedupLoop [] [] docs

/-- The documents whose content does not occur in an earlier document of
the input, written after the specification: `earlier` is the part of the
input before the documents still to be examined. -/
def firstOccurrences : List Document → List Document → List Document
  | _, [] => []
  | earlier, doc :: rest =>
    if doc.PageContent ∈ earlier.map Document.PageContent then
      firstOccurrences (earlier ++ [doc]) rest
    else doc :: firstOccurrences (earlier ++ [doc]) rest

/-! ## The retry wrapper -/

/-- The loop `docs[i].Metadata["user_id"] = userID` of `AddDocuments`; an
assignment into a nil map panics (`none`). -/
def setUserID (userID : String) : List Document → Option (List Document)
  | [] => some []
  | doc :: rest =>
    match doc.Metadata with
    | none => none
    | some m =>
      (setUserID userID rest).map
        (fun docs => { doc with Metadata := some (mapSet m "user_id" (.str userID)) } :: docs)

/-- The loop `for attempt := 1; attempt <= maxRetries; attempt++` of
`AddDocuments`, entered with the loop variable `attempt` and the variable
`err`; the result is the store and the error `AddDocuments` returns. -/
def retryLoop (docs : List Document) (nameSpace : String) (maxRetries : Int) :
    Nat → Int → VectorStore → Option GoError → Res (VectorStore × Option GoError)
  | 0, _, _, _ => .outOfFuel
  | fuel + 1, attempt, vs, err =>
    if attempt ≤ maxRetries then
      let (vs1, err1) := vs.AddDocuments docs (some nameSpace)
      match err1 with
      | some _ =>
        if attempt < maxRetries then
          retryLoop docs nameSpace maxRetries fuel (attempt + 1) vs1 err1
        else
          retryLoop docs nameSpace maxRetries fuel (attempt + 1) vs1 err1
      | none => .done (vs1, none)
    else
      match err with
      | some e => .done (vs, some (.wrap "failed to add documents to vector store: " e))
      | none => .done (vs, some (.new "failed to add documents to vector store: %!w(<nil>)"))

/-- The method `AgentManager.AddDocuments(ctx, docs, userID, orgID)`: the
manager afterwards and the returned error (`none` for `nil`). -/
def AddDocuments (am : AgentManager) (docs : List Document) (userID orgID : String) :
    Res (AgentManager × Option GoError) :=
  match setUserID userID docs with
  | none => .panicked
  | some docs1 =>
    let nameSpace := orgID
    let maxRetries : Int := 3
    match retryLoop docs1 nameSpace maxRetries 4 1 am.VectorStore none with
    | .done (vs, err) => .done ({ am with VectorStore := vs }, err)
    | .panicked => .panicked
    | .outOfFuel => .outOfFuel

/-! ## The write buffer -/

/-- The document `addToBuffer` builds for one chunk; `timestamp` is the
formatted reading of the clock. -/
def conversationDoc (threadID userID orgID timestamp chunk : String) : Document :=
  { PageContent := chunk
    Metadata := some
      [("thread_id", .str threadID), ("user_id", .str userID), ("org_id", .str orgID),
       ("timestamp", .str timestamp), ("source", .str "conversation")] }

/-- The loop `for _, chunk := range chunks` of `addToBuffer`: `k` counts the
readings of the clock taken so far, `now k` being reading number `k`. -/
def appendChunks (now : Nat → String) (threadID userID orgID : String) :
    Nat → List Document → List String → List Document
  | _, messageBuffer, [] => messageBuffer
  | k, messageBuffer, chunk :: rest =>
    appendChunks now threadID userID orgID (k + 1)
      (messageBuffer ++ [conversationDoc threadID userID orgID (now k) chunk]) rest

/-- The method `AgentManager.addToBuffer`: the manager afterwards and
whether the goroutine running `flushBufferToWeaviate` was started.  The
chunker is given one loop iteration more than there are words. -/
def addToBuffer (am : AgentManager) (now : Nat → String)
    (threadID input response userID orgID : String) : Res (AgentManager × Bool) :=
  let content := input ++ "\n" ++ response
  match ChunkContent (wordCount content + 1) content 300 with
  | .done chunks =>
    let messageBuffer := appendChunks now threadID userID orgID 0 am.messageBuffer chunks
    .done ({ am with messageBuffer := messageBuffer },
      decide ((messageBuffer.length : Int) ≥ am.maxBufferMessages))
  | .panicked => .panicked
  | .outOfFuel => .outOfFuel

/-! ## The query driver -/

/-- How `fmt` prints a value of type `any`. -/
def AnyVal.render : AnyVal → String
  | .str s => s
  | .other shown => shown

/-- Insertion of a map entry into a list of entries sorted by key. -/
def insertEntry {β : Type} (e : String × β) : List (String × β) → List (String × β)
  | [] => [e]
  | x :: xs => if e.1 < x.1 then e :: x :: xs else x :: insertEntry e xs

/-- The entries of a map in key order, the order in which `fmt` prints them. -/
def sortByKey {β : Type} (m : GoMap β) : List (String × β) :=
  m.foldr insertEntry []

/-- The verb `%+v` applied to a `map[string]any`. -/
def fmtMetadata (m : Option (GoMap AnyVal)) : String :=
  "map[" ++ Join ((sortByKey (m.getD [])).map (fun e => e.1 ++ ":" ++ e.2.render)) " " ++ "]"

/-- The verb `%s` applied to the `[]map[string]string` of `formatMessages`. -/
def fmtMessages (ms : List (GoMap String)) : String :=
  "[" ++ Join (ms.map (fun m =>
    "map[" ++ Join ((sortByKey m).map (fun e => e.1 ++ ":" ++ e.2)) " " ++ "]")) " " ++ "]"

/-- The text `Query` writes into `docContext` for one document. -/
def renderDoc (doc : Document) : String :=
  "Document: " ++ doc.PageContent ++ "\nMetadata: " ++ fmtMetadata doc.Metadata ++ "\n"

/-- The statement `similarDocs := append(orgDocs, defaultDocs...)` of `Query`
(the assignment `similarDocs = nil` that follows for an empty result does
not change the list). -/
def combineResults (orgDocs defaultDocs : List Document) : List Document :=
  orgDocs ++ defaultDocs

/-- The buffer `docContext` of `Query` after the documents are written. -/
def docContext (similarDocs : List Document) : String :=
  if similarDocs.length > 0 then
    similarDocs.foldl (fun buf doc => buf ++ renderDoc doc) ""
  else "No relevant documents found.\n"

/-- The value of `chainInputs["context"]` in `Query`. -/
def llmContext (history : List ChatMessage) (similarDocs : List Document)
    (input : String) : String :=
  "History:\n" ++ fmtMessages (formatMessages history) ++ "\n\nRelevant Documents:\n" ++
    docContext similarDocs ++ "\n\nUser Input:\n" ++ input

/-- What a call of `Query` leaves behind: the manager, the two returned
values, and whether a flush was triggered. -/
structure QueryResult where
  am : AgentManager
  response : String
  err : Option GoError
  flushTriggered : Bool

/-- The method `AgentManager.Query(ctx, userID, orgID, threadID, input,
chunkCallback)`.  A cancelled context shows as an error outcome of the
search or of the chain; the chunk callback does not touch the manager and
is left out. -/
def Query (am : AgentManager) (now : Nat → String)
    (userID orgID threadID input : String) : Res QueryResult :=
  let (am1, threadMemory) := GetThreadMemory am threadID
  let nameSpace := orgID
  let (orgDocs, err) := am1.VectorStore.search input 5 (some nameSpace)
  if err.isSome ∧ err.map GoError.Error ≠ some "empty response" then
    .done ⟨am1, "", err.map (GoError.wrap "org similarity search failed: "), false⟩
  else
  let (defaultDocs, err) := am1.VectorStore.search input 5 none
  if err.isSome ∧ err.map GoError.Error ≠ some "empty response" then
    .done ⟨am1, "", err.map (GoError.wrap "default similarity search failed: "), false⟩
  else
  let similarDocs := combineResults orgDocs defaultDocs
  match am1.heap.get? threadMemory with
  | none => .panicked
  | some buf =>
    let history := buf.ChatHistory
    match am1.LLMChain (llmContext history similarDocs input) with
    | .error e =>
      .done ⟨am1, "", some (.wrap "failed to execute LLMChain: " e), false⟩
    | .ok chainOutputs =>
      match (mapGet chainOutputs "text").bind AnyVal.asString with
      | none => .panicked
      | some fullResponse =>
        let am2 := { am1 with heap := am1.heap.set threadMemory (buf.SaveContext input fullResponse) }
        match addToBuffer am2 now threadID input fullResponse userID orgID with
        | .done (am3, flushed) => .done ⟨am3, fullResponse, none, flushed⟩
        | .panicked => .panicked
        | .outOfFuel => .outOfFuel

/-! ## Reading a thread's history, flushing and syncing the buffer -/

/-- The method `AgentManager.RetrieveMemory(ctx, threadID)`: the manager
afterwards, the formatted messages and the returned error.  The pointer
`GetThreadMemory` returns is never nil and the in-memory chat history
returns its messages without an error, so the two error returns of the
source are not taken; reading through a pointer that refers to no buffer
panics. -/
def RetrieveMemory (am : AgentManager) (threadID : String) :
    Res (AgentManager × List (GoMap String) × Option GoError) :=
  let (am1, threadMemory) := GetThreadMemory am threadID
  match am1.heap.get? threadMemory with
  | none => .panicked
  | some buf =>
    let messages := buf.ChatHistory
    let formattedMessages := formatMessages messages
    .done (am1, formattedMessages, none)

/-- The expression `doc.Metadata["org_id"].(string)` with its `ok` result:
`none` when the map is nil, the key is absent or the value is no string. -/
def orgIDOf (doc : Document) : Option String :=
  match doc.Metadata with
  | none => none
  | some m => (mapGet m "org_id").bind AnyVal.asString

/-- The method `AgentManager.flushBufferToWeaviate(ctx)`: the pending
buffer is swapped for an empty one, and the deduplicated batch is added
under the `org_id` of its first document; the error of the add is logged
only. -/
def flushBufferToWeaviate (am : AgentManager) : AgentManager :=
  let buffer := am.messageBuffer
  let am1 := { am with messageBuffer := [] }
  if buffer.length = 0 then am1
  else
    let uniqueDocs := deduplicateDocuments buffer
    match uniqueDocs with
    | [] => am1
    | first :: _ =>
      match orgIDOf first with
      | none => am1
      | some orgID =>
        let nameSpace := orgID
        let (vs, _) := am1.VectorStore.AddDocuments uniqueDocs (some nameSpace)
        { am1 with VectorStore := vs }

/-- The method `AgentManager.SyncMemory(ctx)`: the manager afterwards and
the returned error. -/
def SyncMemory (am : AgentManager) : AgentManager × Option GoError :=
  if am.messageBuffer.length = 0 then (am, none)
  else
    let (vs, err) := am.VectorStore.AddDocuments am.messageBuffer none
    match err with
    | some e => ({ am with VectorStore := vs }, some e)
    | none => ({ am with VectorStore := vs, messageBuffer := [] }, none)

/-! ## Lock and I/O events -/

/-- The two mutexes of the agent manager. -/
inductive Mutex where
  | memoryMutex
  | bufferMutex
  deriving DecidableEq, Repr

/-- What an operation does, as far as locking is concerned: taking and
releasing a mutex, the blocking calls (similarity search, chain call,
vector-store write), and starting the flush goroutine. -/
inductive Event where
  | lock (m : Mutex)
  | unlock (m : Mutex)
  | search
  | generate
  | storeWrite
  | goFlush
  deriving DecidableEq, Repr

/-- The events of `GetThreadMemory`, in program order: `Lock`, the map
lookup and insert, and the deferred `Unlock` on return. -/
def GetThreadMemoryEvents (_am : AgentManager) (_threadID : String) : List Event :=
  [.lock .memoryMutex, .unlock .memoryMutex]

/-- The events of `addToBuffer`, in program order: `Lock`, the chunking and
appends, the `go` statement when the threshold is reached, and the deferred
`Unlock` on return. -/
def addToBufferEvents (am : AgentManager) (now : Nat → String)
    (threadID input response userID orgID : String) : List Event :=
  match addToBuffer am now threadID input response userID orgID with
  | .done (_, true) => [.lock .bufferMutex, .goFlush, .unlock .bufferMutex]
  | _ => [.lock .bufferMutex, .unlock .bufferMutex]

/-- The events of `flushBufferToWeaviate`, in program order: `Lock`, the
swap, `Unlock`, and then the batch-add when one is made. -/
def flushBufferToWeaviateEvents (am : AgentManager) : List Event :=
  [.lock .bufferMutex, .unlock .bufferMutex] ++
    (if am.messageBuffer.length = 0 then []
     else
      match deduplicateDocuments am.messageBuffer with
      | [] => []
      | first :: _ =>
        match orgIDOf first with
        | none => []
        | some _ => [.storeWrite])

/-- The events of `SyncMemory`, in program order: `Lock`, the batch-add when
the buffer is not empty, and the deferred `Unlock` on return. -/
def SyncMemoryEvents (am : AgentManager) : List Event :=
  [.lock .bufferMutex] ++
    (if am.messageBuffer.length = 0 then [] else [.storeWrite]) ++
    [.unlock .bufferMutex]

/-! ## Definitions used to state the theorems -/

/-- Consecutive groups of `m` elements of a list, the last group possibly
shorter: the grouping the specification of the chunker describes. -/
def wordGroups {α : Type} (m : Nat) : List α → List (List α)
  | [] => []
  | a :: t =>
    if 0 < m then (a :: t).take m :: wordGroups m ((a :: t).drop m) else []
termination_by ws => ws.length
decreasing_by
  simp only [List.length_drop, List.length_cons]; omega

/-- A word: a non-empty string without white space. -/
def IsWord (w : String) : Prop :=
  w.data ≠ [] ∧ ∀ c ∈ w.data, isSpace c = false

/-- The outcome the store holds for the batch-add call made `k` calls from
now. -/
def nextOutcome (am : AgentManager) (k : Nat) : Option GoError :=
  am.VectorStore.addOutcome (am.VectorStore.addCalls.length + k)

/-- The chunks of one conversation turn, written after the specification:
the words of `input + "\\n" + response` in groups of 300, each group joined
by single spaces. -/
def turnChunks (input response : String) : List String :=
  (wordGroups 300 (Fields (input ++ "\n" ++ response))).map (fun g => Join g " ")

/-- Concatenation of a list of strings, in order. -/
def concatStrings : List String → String
  | [] => ""
  | s :: rest => s ++ concatStrings rest

/-- A store whose similarity searches find nothing and whose batch-add
fails twice and succeeds from the third call on. -/
def exampleStore : VectorStore :=
  { search := fun _ _ _ => ([], some (.new "empty response"))
    addOutcome := fun n => if n < 2 then some (.new "unavailable") else none
    addCalls := [] }

/-- A manager with one pending document, threshold 1, no thread, and a
chain that always fails. -/
def exampleManager : AgentManager :=
  { VectorStore := exampleStore
    LLMChain := fun _ => .error (.new "context canceled")
    AgentMemory := []
    heap := []
    messageBuffer := [⟨"earlier turn", some []⟩]
    maxBufferMessages := 1 }

/-- Whether a sequence of events keeps the rule "no blocking call while a
mutex is held", `held` being the mutexes held when the sequence starts. -/
def noIOWhileLocked : List Mutex → List Event → Bool
  | _, [] => true
  | held, .lock m :: rest => noIOWhileLocked (m :: held) rest
  | held, .unlock m :: rest => noIOWhileLocked (held.erase m) rest
  | held, .goFlush :: rest => noIOWhileLocked held rest
  | held, _ :: rest => held.isEmpty && noIOWhileLocked held rest

/-- Every pending document carries a string `org_id`, as the documents
`addToBuffer` appends do. -/
def PendingTagged (am : AgentManager) : Prop :=
  ∀ d ∈ am.messageBuffer, ∃ orgID, orgIDOf d = some orgID

/-- A manager with one registered thread holding one exchange, and two
pending documents of the tenant `acme` with equal content. -/
def exampleChatManager : AgentManager :=
  { VectorStore := exampleStore
    LLMChain := fun _ => .error (.new "context canceled")
    AgentMemory := [("t1", 0)]
    heap := [⟨"thread:t1", false, [⟨.Human, "hi"⟩, ⟨.AI, "hello"⟩]⟩]
    messageBuffer :=
      [conversationDoc "t1" "u1" "acme" "2024-01-01T00:00:00Z" "hi hello",
       conversationDoc "t1" "u1" "acme" "2024-01-01T00:00:05Z" "hi hello"]
    maxBufferMessages := 5 }

/-- A manager whose tenant-namespace search finds the documents A and B,
whose default-namespace search finds C and D, and whose chain answers with
the context it is given. -/
def exampleMergeManager : AgentManager :=
  { VectorStore :=
      { search := fun _ _ ns =>
          match ns with
          | some _ => ([⟨"A", some [("org_id", .str "acme")]⟩, ⟨"B", none⟩], none)
          | none => ([⟨"C", some []⟩, ⟨"D", none⟩], some (.new "empty response"))
        addOutcome := fun _ => none
        addCalls := [] }
    LLMChain := fun context => .ok [("text", .str context)]
    AgentMemory := []
    heap := []
    messageBuffer := []
    maxBufferMessages := 5 }

/-! # Theorems -/

/-! ## Lemmas on `Join` -/

theorem Join_cons_of_ne_nil (a : String) (l : List String) (sep : String) (h : l ≠ []) :
    Join (a :: l) sep = a ++ sep ++ Join l sep := by
  cases l with
  | nil => exact absurd rfl h
  | cons b rest => rfl

theorem Join_append (l₁ l₂ : List String) (sep : String) (h₁ : l₁ ≠ []) (h₂ : l₂ ≠ []) :
    Join (l₁ ++ l₂) sep = Join l₁ sep ++ sep ++ Join l₂ sep := by
  induction l₁ with
  | nil => exact absurd rfl h₁
  | cons a t ih =>
    cases t with
    | nil =>
      show Join (a :: l₂) sep = _
      rw [Join_cons_of_ne_nil a l₂ sep h₂]
      rfl
    | cons b rest =>
      have ih1 := ih (by simp)
      show Join (a :: ((b :: rest) ++ l₂)) sep = _
      rw [Join_cons_of_ne_nil a _ sep (by simp), ih1,
        Join_cons_of_ne_nil a (b :: rest) sep (by simp)]
      simp only [String.append_assoc]

theorem Join_map_Join (gs : List (List String)) (sep : String)
    (h : ∀ g ∈ gs, g ≠ []) :
    Join (gs.map (fun g => Join g sep)) sep = Join gs.flatten sep := by
  induction gs with
  | nil => rfl
  | cons g rest ih =>
    have hg : g ≠ [] := h g (List.mem_cons_self _ _)
    have hrest : ∀ g ∈ rest, g ≠ [] := fun x hx => h x (List.mem_cons_of_mem _ hx)
    cases rest with
    | nil => simp [Join]
    | cons g2 rest2 =>
      have hne : (g2 :: rest2).flatten ≠ [] := by
        have := hrest g2 (List.mem_cons_self _ _)
        simp [List.flatten_cons, this]
      rw [List.map_cons, Join_cons_of_ne_nil _ _ _ (by simp), ih hrest,
        List.flatten_cons (l := g), Join_append _ _ _ hg hne]

/-! ## Lemmas on `wordGroups` -/

theorem wordGroups_nil {α : Type} (m : Nat) : wordGroups m ([] : List α) = [] := by
  rw [wordGroups]

theorem wordGroups_of_ne_nil {α : Type} (m : Nat) (ws : List α) (hm : 0 < m) (h : ws ≠ []) :
    wordGroups m ws = ws.take m :: wordGroups m (ws.drop m) := by
  cases ws with
  | nil => exact absurd rfl h
  | cons a t => rw [wordGroups]; simp [hm]

theorem wordGroups_flatten {α : Type} (m : Nat) (hm : 0 < m) (ws : List α) :
    (wordGroups m ws).flatten = ws := by
  obtain ⟨n, hn⟩ : ∃ n, ws.length ≤ n := ⟨_, le_refl _⟩
  induction n generalizing ws with
  | zero =>
    have : ws = [] := List.length_eq_zero.mp (by omega)
    subst this; simp [wordGroups_nil]
  | succ n ih =>
    by_cases hws : ws = []
    · subst hws; simp [wordGroups_nil]
    · have hpos : 0 < ws.length := List.length_pos.mpr hws
      rw [wordGroups_of_ne_nil m ws hm hws, List.flatten_cons,
        ih (ws.drop m) (by simp only [List.length_drop]; omega)]
      exact List.take_append_drop m ws

theorem wordGroups_mem {α : Type} (m : Nat) (hm : 0 < m) (ws : List α) :
    ∀ g ∈ wordGroups m ws, g ≠ [] ∧ g.length ≤ m ∧ ∀ x ∈ g, x ∈ ws := by
  obtain ⟨n, hn⟩ : ∃ n, ws.length ≤ n := ⟨_, le_refl _⟩
  induction n generalizing ws with
  | zero =>
    have : ws = [] := List.length_eq_zero.mp (by omega)
    subst this; simp [wordGroups_nil]
  | succ n ih =>
    by_cases hws : ws = []
    · subst hws; simp [wordGroups_nil]
    · intro g hg
      have hpos : 0 < ws.length := List.length_pos.mpr hws
      rw [wordGroups_of_ne_nil m ws hm hws, List.mem_cons] at hg
      rcases hg with hg | hg
      · subst hg
        refine ⟨?_, ?_, fun x hx => List.mem_of_mem_take hx⟩
        · intro hnil
          have := congrArg List.length hnil
          simp only [List.length_take, List.length_nil] at this
          omega
        · simp [List.length_take]
      · have := ih (ws.drop m) (by simp only [List.length_drop]; omega) g hg
        exact ⟨this.1, this.2.1, fun x hx => List.mem_of_mem_drop (this.2.2 x hx)⟩

theorem wordGroups_length {α : Type} (m : Nat) (hm : 0 < m) (ws : List α) :
    (wordGroups m ws).length = (ws.length + m - 1) / m := by
  obtain ⟨n, hn⟩ : ∃ n, ws.length ≤ n := ⟨_, le_refl _⟩
  induction n generalizing ws with
  | zero =>
    have : ws = [] := List.length_eq_zero.mp (by omega)
    subst this
    rw [wordGroups_nil]
    simp only [List.length_nil, Nat.zero_add]
    exact (Nat.div_eq_of_lt (by omega)).symm
  | succ n ih =>
    by_cases hws : ws = []
    · subst hws
      rw [wordGroups_nil]
      simp only [List.length_nil, Nat.zero_add]
      exact (Nat.div_eq_of_lt (by omega)).symm
    · have hpos : 0 < ws.length := List.length_pos.mpr hws
      rw [wordGroups_of_ne_nil m ws hm hws, List.length_cons,
        ih (ws.drop m) (by simp only [List.length_drop]; omega), List.length_drop]
      by_cases hle : m ≤ ws.length
      · have e : ws.length + m - 1 = (ws.length - m + m - 1) + m := by omega
        rw [e, Nat.add_div_right _ hm]
      · have e1 : ws.length - m + m - 1 = m - 1 := by omega
        have e2 : ws.length + m - 1 = (ws.length - 1) + m := by omega
        rw [e1, e2, Nat.add_div_right _ hm, Nat.div_eq_of_lt (by omega),
          Nat.div_eq_of_lt (by omega)]

theorem wordGroups_full {α : Type} (m : Nat) (hm : 0 < m) (ws : List α) :
    ∀ k g, k + 1 < (wordGroups m ws).length → (wordGroups m ws)[k]? = some g → g.length = m := by
  obtain ⟨n, hn⟩ : ∃ n, ws.length ≤ n := ⟨_, le_refl _⟩
  induction n generalizing ws with
  | zero =>
    have : ws = [] := List.length_eq_zero.mp (by omega)
    subst this; simp [wordGroups_nil]
  | succ n ih =>
    by_cases hws : ws = []
    · subst hws; simp [wordGroups_nil]
    · intro k g hk hg
      have hpos : 0 < ws.length := List.length_pos.mpr hws
      rw [wordGroups_of_ne_nil m ws hm hws] at hk hg
      cases k with
      | zero =>
        simp only [List.getElem?_cons_zero, Option.some.injEq] at hg
        subst hg
        have hne : wordGroups m (ws.drop m) ≠ [] := by
          intro hnil
          rw [hnil] at hk
          simp at hk
        have hdrop : ws.drop m ≠ [] := by
          intro hnil
          rw [hnil, wordGroups_nil] at hne
          exact hne rfl
        have : 0 < (ws.drop m).length := List.length_pos.mpr hdrop
        simp only [List.length_drop] at this
        simp only [List.length_take]
        omega
      | succ k =>
        simp only [List.getElem?_cons_succ] at hg
        simp only [List.length_cons] at hk
        exact ih (ws.drop m) (by simp only [List.length_drop]; omega) k g
          (by omega) hg

/-! ## Lemmas on `Fields` -/


theorem fieldsAux_isWord (rest : List Char) :
    ∀ cur : List Char, (∀ c ∈ cur, isSpace c = false) →
      ∀ w ∈ fieldsAux cur rest, IsWord w := by
  induction rest with
  | nil =>
    intro cur hcur w hw
    unfold fieldsAux at hw
    by_cases he : cur.isEmpty = true
    · simp [he] at hw
    · simp only [he, Bool.false_eq_true, if_false, List.mem_singleton] at hw
      subst hw
      exact ⟨fun h => he (by rw [show cur = [] from h]; rfl), hcur⟩
  | cons c cs ih =>
    intro cur hcur w hw
    unfold fieldsAux at hw
    by_cases hc : isSpace c = true
    · simp only [hc, if_true] at hw
      by_cases he : cur.isEmpty = true
      · simp only [he, if_true] at hw
        exact ih [] (by simp) w hw
      · simp only [he, Bool.false_eq_true, if_false, List.mem_cons] at hw
        rcases hw with hw | hw
        · subst hw
          exact ⟨fun h => he (by rw [show cur = [] from h]; rfl), hcur⟩
        · exact ih [] (by simp) w hw
    · simp only [hc, Bool.false_eq_true, if_false] at hw
      refine ih (cur ++ [c]) ?_ w hw
      intro x hx
      rcases List.mem_append.mp hx with hx | hx
      · exact hcur x hx
      · rw [List.mem_singleton.mp hx]; simpa using hc

theorem Fields_isWord (s : String) : ∀ w ∈ Fields s, IsWord w :=
  fieldsAux_isWord s.data [] (by simp)

theorem fieldsAux_of_all_space (rest : List Char) (h : ∀ c ∈ rest, isSpace c = true) :
    fieldsAux [] rest = [] := by
  induction rest with
  | nil => rfl
  | cons c cs ih =>
    have hc : isSpace c = true := h c (List.mem_cons_self _ _)
    rw [fieldsAux]
    simp only [hc, if_true, List.isEmpty_nil]
    exact ih (fun x hx => h x (List.mem_cons_of_mem _ hx))

theorem fieldsAux_append (w : List Char) (hw : ∀ c ∈ w, isSpace c = false) :
    ∀ (cur rest : List Char), fieldsAux cur (w ++ rest) = fieldsAux (cur ++ w) rest := by
  induction w with
  | nil => intro cur rest; simp
  | cons c cs ih =>
    intro cur rest
    have hc : isSpace c = false := hw c (List.mem_cons_self _ _)
    have hcs : ∀ x ∈ cs, isSpace x = false := fun x hx => hw x (List.mem_cons_of_mem _ hx)
    show fieldsAux cur (c :: (cs ++ rest)) = _
    rw [fieldsAux]
    simp only [hc, Bool.false_eq_true, if_false]
    rw [ih hcs (cur ++ [c]) rest]
    simp

theorem fieldsAux_Join (ws : List String) (h : ∀ w ∈ ws, IsWord w) :
    fieldsAux [] (Join ws " ").data = ws := by
  induction ws with
  | nil => rfl
  | cons a t ih =>
    have ha : IsWord a := h a (List.mem_cons_self _ _)
    have ht : ∀ w ∈ t, IsWord w := fun x hx => h x (List.mem_cons_of_mem _ hx)
    have hne : a.data.isEmpty = false := by
      cases hd : a.data with
      | nil => exact absurd hd ha.1
      | cons x xs => rfl
    cases t with
    | nil =>
      show fieldsAux [] a.data = [a]
      have := fieldsAux_append a.data ha.2 [] []
      simp only [List.append_nil, List.nil_append] at this
      rw [this, fieldsAux]
      simp [hne]
    | cons b rest =>
      rw [Join_cons_of_ne_nil a (b :: rest) " " (by simp)]
      simp only [String.data_append]
      rw [List.append_assoc, fieldsAux_append a.data ha.2 [] _]
      show fieldsAux ([] ++ a.data) (Char.ofNat 32 :: (Join (b :: rest) " ").data) = _
      rw [List.nil_append, fieldsAux]
      have hsp : isSpace (Char.ofNat 32) = true := by decide
      simp only [hsp, if_true, hne, Bool.false_eq_true, if_false]
      rw [ih ht]

theorem wordCount_Join (ws : List String) (h : ∀ w ∈ ws, IsWord w) :
    wordCount (Join ws " ") = ws.length := by
  unfold wordCount Fields
  rw [fieldsAux_Join ws h]

/-! ## The loop of `ChunkContent` -/

theorem sliceRange_chunk (words : List String) (m i : Nat) (hi : i < words.length) :
    sliceRange words (i : Int)
      (if (i : Int) + (m : Int) > (words.length : Int) then (words.length : Int)
        else (i : Int) + (m : Int)) = some ((words.drop i).take m) := by
  unfold sliceRange
  by_cases hgt : (i : Int) + (m : Int) > (words.length : Int)
  · have h1 : (0 : Int) ≤ (i : Int) ∧ (i : Int) ≤ (words.length : Int) ∧
        (words.length : Int) ≤ (words.length : Int) := ⟨by omega, by omega, le_refl _⟩
    simp only [hgt, if_true, h1, and_self, Int.toNat_ofNat, Option.some.injEq]
    have hlen : (words.drop i).length = words.length - i := List.length_drop _ _
    rw [List.take_of_length_le (by omega), List.take_of_length_le (by omega)]
  · have h1 : (0 : Int) ≤ (i : Int) ∧ (i : Int) ≤ (i : Int) + (m : Int) ∧
        (i : Int) + (m : Int) ≤ (words.length : Int) := ⟨by omega, by omega, by omega⟩
    simp only [hgt, if_false, h1, and_self, if_true, Int.toNat_ofNat, Option.some.injEq]
    have : ((i : Int) + (m : Int)).toNat - i = m := by omega
    rw [this]

theorem chunkLoop_eq (words : List String) (m : Nat) (hm : 0 < m) :
    ∀ (fuel i : Nat) (acc : List String), words.length - i < fuel →
      chunkLoop words (m : Int) fuel (i : Int) acc =
        .done (acc ++ (wordGroups m (words.drop i)).map (fun g => Join g " ")) := by
  intro fuel
  induction fuel with
  | zero => intro i acc h; omega
  | succ fuel ih =>
    intro i acc h
    unfold chunkLoop
    by_cases hi : i < words.length
    · have hi2 : (i : Int) < (words.length : Int) := by omega
      have hne : words.drop i ≠ [] := by
        intro hnil
        have := congrArg List.length hnil
        simp only [List.length_drop, List.length_nil] at this
        omega
      simp only [hi2, if_true]
      rw [sliceRange_chunk words m i hi]
      simp only
      have hcast : (i : Int) + (m : Int) = ((i + m : Nat) : Int) := by push_cast; rfl
      rw [hcast, ih (i + m) _ (by omega), wordGroups_of_ne_nil m _ hm hne, List.drop_drop]
      simp [List.append_assoc, Nat.add_comm]
    · have hi2 : ¬ (i : Int) < (words.length : Int) := by omega
      have hnil : words.drop i = [] := List.drop_eq_nil_of_le (by omega)
      simp only [hi2, if_false, hnil, wordGroups_nil, List.map_nil, List.append_nil]

theorem ChunkContent_eq (content : String) (m : Nat) (hm : 0 < m) (fuel : Nat)
    (hfuel : wordCount content < fuel) :
    ChunkContent fuel content (m : Int) =
      .done ((wordGroups m (Fields content)).map (fun g => Join g " ")) := by
  unfold ChunkContent
  have := chunkLoop_eq (Fields content) m hm fuel 0 [] (by unfold wordCount at hfuel; omega)
  simpa using this

theorem ceil_div_eq (n m : Nat) (hm : 0 < m) :
    ⌈((n : ℚ) / (m : ℚ))⌉ = (((n + m - 1) / m : Nat) : Int) := by
  rw [Int.ceil_eq_iff]
  have hmq : (0 : ℚ) < (m : ℚ) := by exact_mod_cast hm
  have h1 : (n + m - 1) / m * m ≤ n + m - 1 := Nat.div_mul_le_self _ _
  have h2 : n + m - 1 < ((n + m - 1) / m + 1) * m := by
    have := Nat.lt_succ_iff.mpr (le_refl ((n + m - 1) / m))
    exact (Nat.div_lt_iff_lt_mul hm).mp this
  set q := (n + m - 1) / m with hq
  constructor
  · rw [lt_div_iff₀ hmq]
    have : (q : ℚ) * m < n + m := by
      have h3 : q * m < n + m := by omega
      exact_mod_cast h3
    push_cast
    linarith
  · rw [div_le_iff₀ hmq]
    have h3 : n ≤ q * m := by
      have : n + m - 1 < q * m + m := by rw [Nat.add_mul, Nat.one_mul] at h2; exact h2
      omega
    exact_mod_cast h3

/-- C3: for `maxWords ≥ 1` the chunker returns chunks (whatever fuel beyond
the word count it is given) whose join with single spaces is the
whitespace-normalized content, and whose words, chunk after chunk, are the
words of the content in order. -/
theorem ChunkContent_join_roundtrip (content : String) (maxWords : Int)
    (hmax : 1 ≤ maxWords) :
    ∃ chunks : List String,
      (∀ fuel, wordCount content < fuel →
        ChunkContent fuel content maxWords = .done chunks) ∧
      Join chunks " " = Join (Fields content) " " ∧
      (chunks.map Fields).flatten = Fields content := by
  obtain ⟨m, rfl⟩ : ∃ m : Nat, maxWords = (m : Int) := ⟨maxWords.toNat, by omega⟩
  have hm : 0 < m := by omega
  refine ⟨(wordGroups m (Fields content)).map (fun g => Join g " "),
    fun fuel hfuel => ChunkContent_eq content m hm fuel hfuel, ?_, ?_⟩
  · rw [Join_map_Join _ _ (fun g hg => (wordGroups_mem m hm _ g hg).1),
      wordGroups_flatten m hm]
  · have hmap : ((wordGroups m (Fields content)).map (fun g => Join g " ")).map Fields =
        wordGroups m (Fields content) := by
      rw [List.map_map]
      conv_rhs => rw [← List.map_id (wordGroups m (Fields content))]
      apply List.map_congr_left
      intro g hg
      exact fieldsAux_Join g (fun w hw =>
        Fields_isWord content w ((wordGroups_mem m hm _ g hg).2.2 w hw))
    rw [hmap, wordGroups_flatten m hm]

/-- C4: for `maxWords ≥ 1` every returned chunk holds at least one and at
most `maxWords` words, and every chunk but the last holds exactly
`maxWords` words. -/
theorem ChunkContent_chunk_sizes (content : String) (maxWords : Int)
    (hmax : 1 ≤ maxWords) :
    ∃ chunks : List String,
      (∀ fuel, wordCount content < fuel →
        ChunkContent fuel content maxWords = .done chunks) ∧
      (∀ c ∈ chunks, 1 ≤ wordCount c ∧ (wordCount c : Int) ≤ maxWords) ∧
      (∀ k c, k + 1 < chunks.length → chunks[k]? = some c →
        (wordCount c : Int) = maxWords) := by
  obtain ⟨m, rfl⟩ : ∃ m : Nat, maxWords = (m : Int) := ⟨maxWords.toNat, by omega⟩
  have hm : 0 < m := by omega
  have hcount : ∀ g ∈ wordGroups m (Fields content), wordCount (Join g " ") = g.length :=
    fun g hg => wordCount_Join g (fun w hw =>
      Fields_isWord content w ((wordGroups_mem m hm _ g hg).2.2 w hw))
  refine ⟨(wordGroups m (Fields content)).map (fun g => Join g " "),
    fun fuel hfuel => ChunkContent_eq content m hm fuel hfuel, ?_, ?_⟩
  · intro c hc
    obtain ⟨g, hg, rfl⟩ := List.mem_map.mp hc
    have hmem := wordGroups_mem m hm _ g hg
    rw [hcount g hg]
    have hpos : 0 < g.length := List.length_pos.mpr hmem.1
    exact ⟨hpos, by exact_mod_cast hmem.2.1⟩
  · intro k c hk hc
    rw [List.length_map] at hk
    rw [List.getElem?_map] at hc
    cases hg : (wordGroups m (Fields content))[k]? with
    | none => rw [hg] at hc; simp at hc
    | some g =>
      rw [hg] at hc
      simp only [Option.map_some', Option.some.injEq] at hc
      subst hc
      rw [hcount g (List.getElem?_mem hg), wordGroups_full m hm _ k g hk hg]

/-- C5: for `maxWords ≥ 1` the chunker returns exactly
`ceil(wordCount / maxWords)` chunks, and none when the content is empty or
made of white space only. -/
theorem ChunkContent_chunk_count (content : String) (maxWords : Int)
    (hmax : 1 ≤ maxWords) :
    ∃ chunks : List String,
      (∀ fuel, wordCount content < fuel →
        ChunkContent fuel content maxWords = .done chunks) ∧
      (chunks.length : Int) = ⌈((wordCount content : ℚ) / (maxWords : ℚ))⌉ ∧
      (chunks.length : Int) = ((wordCount content : Int) + maxWords - 1) / maxWords ∧
      ((∀ c ∈ content.data, isSpace c = true) → chunks = []) := by
  obtain ⟨m, rfl⟩ : ∃ m : Nat, maxWords = (m : Int) := ⟨maxWords.toNat, by omega⟩
  have hm : 0 < m := by omega
  have hlen : ((wordGroups m (Fields content)).map (fun g => Join g " ")).length =
      (wordCount content + m - 1) / m := by
    rw [List.length_map, wordGroups_length m hm]; rfl
  refine ⟨(wordGroups m (Fields content)).map (fun g => Join g " "),
    fun fuel hfuel => ChunkContent_eq content m hm fuel hfuel, ?_, ?_, ?_⟩
  · rw [hlen]
    have := ceil_div_eq (wordCount content) m hm
    simp only [Int.cast_natCast]
    exact this.symm
  · rw [hlen]
    have e : (wordCount content : Int) + (m : Int) - 1 = ((wordCount content + m - 1 : Nat) : Int) := by
      omega
    rw [e]
    exact Int.natCast_ediv _ _
  · intro hsp
    have : Fields content = [] := fieldsAux_of_all_space content.data hsp
    rw [this, wordGroups_nil]
    rfl

theorem chunkLoop_zero_diverges (fuel : Nat) :
    ∀ acc : List String, chunkLoop ["a"] 0 fuel 0 acc = .outOfFuel := by
  induction fuel with
  | zero => intro acc; rfl
  | succ fuel ih =>
    intro acc
    unfold chunkLoop
    have hs : sliceRange (["a"] : List String) 0 0 = some [] := by decide
    simp only [List.length_singleton, Nat.cast_one, zero_lt_one, if_true, add_zero,
      gt_iff_lt, Int.lt_irrefl, if_false, not_lt_of_gt, hs]
    exact ih _

/-- C6: the chunker is not total.  On the content `"a"`, with
`maxWords = 0` the loop never ends (no amount of fuel lets it return), and
with `maxWords = -1` the slice expression panics; with `maxWords = 1` it
returns. -/
theorem ChunkContent_not_total :
    (∀ fuel, ChunkContent fuel "a" 0 = .outOfFuel) ∧
    (∀ fuel, ChunkContent (fuel + 1) "a" (-1) = .panicked) ∧
    ChunkContent 2 "a" 1 = .done ["a"] := by
  have hw : Fields "a" = ["a"] := by decide
  refine ⟨?_, ?_, by decide⟩
  · intro fuel
    unfold ChunkContent
    rw [hw]
    exact chunkLoop_zero_diverges fuel []
  · intro fuel
    unfold ChunkContent
    rw [hw]
    rfl

theorem ChunkContent_join_roundtrip_witness :
    (1 : Int) ≤ 2 ∧
    ∃ chunks : List String,
      (∀ fuel, wordCount "a  b c" < fuel →
        ChunkContent fuel "a  b c" 2 = .done chunks) ∧
      Join chunks " " = Join (Fields "a  b c") " " ∧
      (chunks.map Fields).flatten = Fields "a  b c" :=
  ⟨by decide, ChunkContent_join_roundtrip "a  b c" 2 (by decide)⟩

theorem ChunkContent_chunk_sizes_witness :
    (1 : Int) ≤ 2 ∧
    ∃ chunks : List String,
      (∀ fuel, wordCount "a  b c" < fuel →
        ChunkContent fuel "a  b c" 2 = .done chunks) ∧
      (∀ c ∈ chunks, 1 ≤ wordCount c ∧ (wordCount c : Int) ≤ 2) ∧
      (∀ k c, k + 1 < chunks.length → chunks[k]? = some c →
        (wordCount c : Int) = 2) :=
  ⟨by decide, ChunkContent_chunk_sizes "a  b c" 2 (by decide)⟩

theorem ChunkContent_chunk_count_witness :
    (1 : Int) ≤ 2 ∧
    ∃ chunks : List String,
      (∀ fuel, wordCount "a  b c" < fuel →
        ChunkContent fuel "a  b c" 2 = .done chunks) ∧
      (chunks.length : Int) = ⌈((wordCount "a  b c" : ℚ) / ((2 : Int) : ℚ))⌉ ∧
      (chunks.length : Int) = ((wordCount "a  b c" : Int) + 2 - 1) / 2 ∧
      ((∀ c ∈ "a  b c".data, isSpace c = true) → chunks = []) :=
  ⟨by decide, ChunkContent_chunk_count "a  b c" 2 (by decide)⟩

/-! ## Deduplication -/

theorem mapGet_mapSet_isSome {β : Type} (m : GoMap β) (k : String) (v : β) (k2 : String) :
    (mapGet (mapSet m k v) k2).isSome = true ↔ k2 = k ∨ (mapGet m k2).isSome = true := by
  induction m with
  | nil =>
    simp only [mapSet, mapGet]
    by_cases h : k = k2
    · simp [h]
    · have h2 : ¬ k2 = k := fun e => h e.symm
      simp [h, h2]
  | cons e rest ih =>
    obtain ⟨k0, v0⟩ := e
    simp only [mapSet]
    by_cases h0 : k0 = k
    · subst h0
      simp only [if_true, mapGet]
      by_cases h : k0 = k2
      · simp [h]
      · have h2 : ¬ k2 = k0 := fun e => h e.symm
        simp [h, h2]
    · simp only [h0, if_false, mapGet]
      by_cases h : k0 = k2
      · simp [h]
      · simp only [h, if_false]
        exact ih

theorem dedupLoop_eq (rest : List Document) :
    ∀ (seen : GoMap Bool) (uniqueDocs earlier : List Document),
      (∀ c, (mapGet seen c).isSome = true ↔ c ∈ earlier.map Document.PageContent) →
      dedupLoop seen uniqueDocs rest = uniqueDocs ++ firstOccurrences earlier rest := by
  induction rest with
  | nil => intro seen uniqueDocs earlier _; simp [dedupLoop, firstOccurrences]
  | cons doc rest ih =>
    intro seen uniqueDocs earlier hseen
    unfold dedupLoop firstOccurrences
    by_cases hin : doc.PageContent ∈ earlier.map Document.PageContent
    · have h1 : (mapGet seen doc.PageContent).isSome = true := (hseen _).mpr hin
      simp only [h1, if_true, hin]
      refine ih seen uniqueDocs (earlier ++ [doc]) ?_
      intro c
      rw [hseen c, List.map_append, List.mem_append, List.map_singleton, List.mem_singleton]
      constructor
      · exact fun h => Or.inl h
      · rintro (h | h)
        · exact h
        · rw [h]; exact hin
    · have h1 : ¬ (mapGet seen doc.PageContent).isSome = true := fun h => hin ((hseen _).mp h)
      simp only [h1, if_false, hin]
      rw [ih (mapSet seen doc.PageContent true) (uniqueDocs ++ [doc]) (earlier ++ [doc]) ?_]
      · simp
      · intro c
        rw [mapGet_mapSet_isSome, hseen c, List.map_append, List.mem_append, List.map_singleton,
          List.mem_singleton]
        exact or_comm

theorem firstOccurrences_sublist (docs : List Document) :
    ∀ earlier, (firstOccurrences earlier docs).Sublist docs := by
  induction docs with
  | nil => intro earlier; simp [firstOccurrences]
  | cons doc rest ih =>
    intro earlier
    unfold firstOccurrences
    by_cases hin : doc.PageContent ∈ earlier.map Document.PageContent
    · simp only [hin, if_true]
      exact (ih _).cons _
    · simp only [hin, if_false]
      exact (ih _).cons₂ _

theorem firstOccurrences_fresh (docs : List Document) :
    ∀ earlier, ∀ d ∈ firstOccurrences earlier docs,
      d.PageContent ∉ earlier.map Document.PageContent := by
  induction docs with
  | nil => intro earlier d hd; simp [firstOccurrences] at hd
  | cons doc rest ih =>
    intro earlier d hd
    unfold firstOccurrences at hd
    have hrest : ∀ x ∈ firstOccurrences (earlier ++ [doc]) rest,
        x.PageContent ∉ earlier.map Document.PageContent := by
      intro x hx hmem
      exact ih (earlier ++ [doc]) x hx (by
        rw [List.map_append, List.mem_append]; exact Or.inl hmem)
    by_cases hin : doc.PageContent ∈ earlier.map Document.PageContent
    · simp only [hin, if_true] at hd
      exact hrest d hd
    · simp only [hin, if_false, List.mem_cons] at hd
      rcases hd with hd | hd
      · rw [hd]; exact hin
      · exact hrest d hd

theorem firstOccurrences_nodup (docs : List Document) :
    ∀ earlier, ((firstOccurrences earlier docs).map Document.PageContent).Nodup := by
  induction docs with
  | nil => intro earlier; simp [firstOccurrences]
  | cons doc rest ih =>
    intro earlier
    unfold firstOccurrences
    by_cases hin : doc.PageContent ∈ earlier.map Document.PageContent
    · simp only [hin, if_true]
      exact ih _
    · simp only [hin, if_false, List.map_cons, List.nodup_cons]
      refine ⟨?_, ih _⟩
      intro hmem
      obtain ⟨x, hx, hxc⟩ := List.mem_map.mp hmem
      exact firstOccurrences_fresh rest (earlier ++ [doc]) x hx (by
        rw [List.map_append, List.mem_append, List.map_singleton, List.mem_singleton]
        exact Or.inr hxc)

theorem firstOccurrences_covers (docs : List Document) :
    ∀ earlier, ∀ d ∈ docs, d.PageContent ∈ earlier.map Document.PageContent ∨
      d.PageContent ∈ (firstOccurrences earlier docs).map Document.PageContent := by
  induction docs with
  | nil => intro earlier d hd; simp at hd
  | cons doc rest ih =>
    intro earlier d hd
    unfold firstOccurrences
    rcases List.mem_cons.mp hd with hd | hd
    · subst hd
      by_cases hin : d.PageContent ∈ earlier.map Document.PageContent
      · exact Or.inl hin
      · simp [hin]
    · have := ih (earlier ++ [doc]) d hd
      rw [List.map_append, List.mem_append, List.map_singleton, List.mem_singleton] at this
      by_cases hin : doc.PageContent ∈ earlier.map Document.PageContent
      · simp only [hin, if_true]
        rcases this with (h | h) | h
        · exact Or.inl h
        · rw [h]; exact Or.inl hin
        · exact Or.inr h
      · simp only [hin, if_false, List.map_cons, List.mem_cons]
        rcases this with (h | h) | h
        · exact Or.inl h
        · exact Or.inr (Or.inl h)
        · exact Or.inr (Or.inr h)

/-- C7: `deduplicateDocuments` returns the documents whose content does not
occur in an earlier document of the input, in input order: the result is a
subsequence of the input, no two of its documents have equal content, and
every content of the input is the content of one of its documents. -/
theorem deduplicateDocuments_first_occurrences (docs : List Document) :
    deduplicateDocuments docs = firstOccurrences [] docs ∧
    (deduplicateDocuments docs).Sublist docs ∧
    ((deduplicateDocuments docs).map Document.PageContent).Nodup ∧
    (∀ d ∈ docs, d.PageContent ∈ (deduplicateDocuments docs).map Document.PageContent) := by
  have heq : deduplicateDocuments docs = firstOccurrences [] docs := by
    unfold deduplicateDocuments
    rw [dedupLoop_eq docs [] [] [] (by intro c; simp [mapGet])]
    simp
  rw [heq]
  refine ⟨rfl, firstOccurrences_sublist docs [], firstOccurrences_nodup docs [], ?_⟩
  intro d hd
  rcases firstOccurrences_covers docs [] d hd with h | h
  · simp at h
  · exact h

/-! ## The retry wrapper -/

/-- C8: `AddDocuments` calls the store's batch-add with the same documents
and namespace until a call succeeds, at most 3 times; it returns `nil`
exactly when one of the first three calls succeeds, and after three
failures it returns the error of the third call, wrapped. -/
theorem AddDocuments_retry (am : AgentManager) (docs docs1 : List Document)
    (userID orgID : String) (hdocs : setUserID userID docs = some docs1) :
    ∃ (am1 : AgentManager) (err : Option GoError) (attempts : Nat),
      AddDocuments am docs userID orgID = .done (am1, err) ∧
      am1.VectorStore.addCalls =
        am.VectorStore.addCalls ++ List.replicate attempts ⟨docs1, some orgID⟩ ∧
      1 ≤ attempts ∧ attempts ≤ 3 ∧
      (∀ k, k + 1 < attempts → nextOutcome am k ≠ none) ∧
      (err = none ↔ nextOutcome am (attempts - 1) = none) ∧
      (err = none ↔
        (nextOutcome am 0 = none ∨ nextOutcome am 1 = none ∨ nextOutcome am 2 = none)) ∧
      (err ≠ none → attempts = 3 ∧ ∃ e3, nextOutcome am 2 = some e3 ∧
        err = some (.wrap "failed to add documents to vector store: " e3)) := by
  unfold nextOutcome
  rcases h0 : am.VectorStore.addOutcome am.VectorStore.addCalls.length with _ | e0
  · refine ⟨{ am with VectorStore := (am.VectorStore.AddDocuments docs1 (some orgID)).1 },
      none, 1, ?_, ?_, ?_⟩
    · simp [AddDocuments, hdocs, retryLoop, VectorStore.AddDocuments, h0]
    · simp [VectorStore.AddDocuments]
    · simp [h0]
  · rcases h1 : am.VectorStore.addOutcome (am.VectorStore.addCalls.length + 1) with _ | e1
    · refine ⟨{ am with VectorStore :=
          ((am.VectorStore.AddDocuments docs1 (some orgID)).1.AddDocuments docs1
            (some orgID)).1 }, none, 2, ?_, ?_, ?_⟩
      · simp [AddDocuments, hdocs, retryLoop, VectorStore.AddDocuments, h0, h1]
      · simp [VectorStore.AddDocuments, List.replicate]
      · refine ⟨by omega, by omega, ?_, by simp [h1], by simp [h1], by simp⟩
        intro k hk
        have : k = 0 := by omega
        subst this
        simp [h0]
    · rcases h2 : am.VectorStore.addOutcome (am.VectorStore.addCalls.length + 2) with _ | e2
      · refine ⟨{ am with VectorStore :=
            (((am.VectorStore.AddDocuments docs1 (some orgID)).1.AddDocuments docs1
              (some orgID)).1.AddDocuments docs1 (some orgID)).1 }, none, 3, ?_, ?_, ?_⟩
        · simp [AddDocuments, hdocs, retryLoop, VectorStore.AddDocuments, h0, h1, h2]
        · simp [VectorStore.AddDocuments, List.replicate]
        · refine ⟨by omega, by omega, ?_, by simp [h2], by simp [h2], by simp⟩
          intro k hk
          have : k = 0 ∨ k = 1 := by omega
          rcases this with rfl | rfl <;> simp [h0, h1]
      · refine ⟨{ am with VectorStore :=
            (((am.VectorStore.AddDocuments docs1 (some orgID)).1.AddDocuments docs1
              (some orgID)).1.AddDocuments docs1 (some orgID)).1 },
            some (.wrap "failed to add documents to vector store: " e2), 3, ?_, ?_, ?_⟩
        · simp [AddDocuments, hdocs, retryLoop, VectorStore.AddDocuments, h0, h1, h2]
        · simp [VectorStore.AddDocuments, List.replicate]
        · refine ⟨by omega, by omega, ?_, by simp [h2], by simp [h0, h1, h2], by simp [h2]⟩
          intro k hk
          have : k = 0 ∨ k = 1 := by omega
          rcases this with rfl | rfl <;> simp [h0, h1]

theorem AddDocuments_retry_witness :
    setUserID "u1" [⟨"x", some []⟩] = some [⟨"x", some [("user_id", .str "u1")]⟩] ∧
    ∃ (am1 : AgentManager) (err : Option GoError) (attempts : Nat),
      AddDocuments exampleManager [⟨"x", some []⟩] "u1" "acme" = .done (am1, err) ∧
      am1.VectorStore.addCalls =
        exampleManager.VectorStore.addCalls ++
          List.replicate attempts ⟨[⟨"x", some [("user_id", .str "u1")]⟩], some "acme"⟩ ∧
      1 ≤ attempts ∧ attempts ≤ 3 ∧
      (∀ k, k + 1 < attempts → nextOutcome exampleManager k ≠ none) ∧
      (err = none ↔ nextOutcome exampleManager (attempts - 1) = none) ∧
      (err = none ↔
        (nextOutcome exampleManager 0 = none ∨ nextOutcome exampleManager 1 = none ∨
          nextOutcome exampleManager 2 = none)) ∧
      (err ≠ none → attempts = 3 ∧ ∃ e3, nextOutcome exampleManager 2 = some e3 ∧
        err = some (.wrap "failed to add documents to vector store: " e3)) :=
  ⟨by decide,
    AddDocuments_retry exampleManager [⟨"x", some []⟩] [⟨"x", some [("user_id", .str "u1")]⟩]
      "u1" "acme" (by decide)⟩

/-! ## The thread-memory registry -/

theorem mapGet_mapSet_self {β : Type} (m : GoMap β) (k : String) (v : β) :
    mapGet (mapSet m k v) k = some v := by
  induction m with
  | nil => simp [mapSet, mapGet]
  | cons e rest ih =>
    obtain ⟨k0, v0⟩ := e
    by_cases h0 : k0 = k
    · simp [mapSet, mapGet, h0]
    · simp [mapSet, mapGet, h0, ih]

theorem mapGet_mapSet_of_ne {β : Type} (m : GoMap β) (k : String) (v : β) (k2 : String)
    (h : k2 ≠ k) : mapGet (mapSet m k v) k2 = mapGet m k2 := by
  induction m with
  | nil =>
    have h2 : ¬ k = k2 := fun e => h e.symm
    simp [mapSet, mapGet, h2]
  | cons e rest ih =>
    obtain ⟨k0, v0⟩ := e
    by_cases h0 : k0 = k
    · subst h0
      have h2 : ¬ k0 = k2 := fun e => h e.symm
      simp [mapSet, mapGet, h2]
    · by_cases h1 : k0 = k2
      · subst h1
        simp [mapSet, mapGet, h0]
      · simp [mapSet, mapGet, h0, h1, ih]

theorem mapSet_keys_of_absent {β : Type} (m : GoMap β) (k : String) (v : β)
    (h : mapGet m k = none) : (mapSet m k v).map Prod.fst = m.map Prod.fst ++ [k] := by
  induction m with
  | nil => simp [mapSet]
  | cons e rest ih =>
    obtain ⟨k0, v0⟩ := e
    by_cases h0 : k0 = k
    · simp [mapGet, h0] at h
    · simp only [mapGet, h0, if_false] at h
      simp [mapSet, h0, ih h]

theorem mapGet_none_not_mem {β : Type} (m : GoMap β) (k : String)
    (h : mapGet m k = none) : k ∉ m.map Prod.fst := by
  induction m with
  | nil => simp
  | cons e rest ih =>
    obtain ⟨k0, v0⟩ := e
    by_cases h0 : k0 = k
    · simp [mapGet, h0] at h
    · simp only [mapGet, h0, if_false] at h
      simp only [List.map_cons, List.mem_cons, not_or]
      exact ⟨fun e => h0 e.symm, ih h⟩

theorem GetThreadMemory_of_present (am : AgentManager) (threadID : String) (mem : Nat)
    (h : mapGet am.AgentMemory threadID = some mem) :
    GetThreadMemory am threadID = (am, mem) := by
  simp [GetThreadMemory, h]

theorem GetThreadMemory_of_absent (am : AgentManager) (threadID : String)
    (h : mapGet am.AgentMemory threadID = none) :
    GetThreadMemory am threadID =
      ({ am with
          heap := am.heap ++ [NewConversationBuffer ("thread:" ++ threadID) false]
          AgentMemory := mapSet am.AgentMemory threadID am.heap.length },
        am.heap.length) := by
  simp [GetThreadMemory, h]

theorem GetThreadMemory_registers (am : AgentManager) (threadID : String) :
    mapGet (GetThreadMemory am threadID).1.AgentMemory threadID =
      some (GetThreadMemory am threadID).2 := by
  cases h : mapGet am.AgentMemory threadID with
  | some mem => rw [GetThreadMemory_of_present am threadID mem h]; exact h
  | none => rw [GetThreadMemory_of_absent am threadID h]; exact mapGet_mapSet_self _ _ _

theorem GetThreadMemory_idempotent (am : AgentManager) (threadID : String) :
    GetThreadMemory (GetThreadMemory am threadID).1 threadID = GetThreadMemory am threadID :=
  GetThreadMemory_of_present _ _ _ (GetThreadMemory_registers am threadID)

theorem GetThreadMemory_messageBuffer (am : AgentManager) (threadID : String) :
    (GetThreadMemory am threadID).1.messageBuffer = am.messageBuffer ∧
    (GetThreadMemory am threadID).1.maxBufferMessages = am.maxBufferMessages ∧
    (GetThreadMemory am threadID).1.VectorStore = am.VectorStore ∧
    (GetThreadMemory am threadID).1.LLMChain = am.LLMChain := by
  cases h : mapGet am.AgentMemory threadID with
  | some mem => rw [GetThreadMemory_of_present am threadID mem h]; simp
  | none => rw [GetThreadMemory_of_absent am threadID h]; simp

/-- C10: `GetThreadMemory` is an idempotent get-or-create.  A registered
thread id yields its buffer and leaves the manager unchanged; an
unregistered one yields a new empty buffer, registered under that id, with
the other ids' entries and all existing buffers unchanged; a second call
with the same id returns the same buffer and changes nothing; and a
registry that holds every id once still does afterwards. -/
theorem GetThreadMemory_get_or_create (am : AgentManager) (threadID : String) :
    (∀ mem, mapGet am.AgentMemory threadID = some mem →
      GetThreadMemory am threadID = (am, mem)) ∧
    (mapGet am.AgentMemory threadID = none →
      (GetThreadMemory am threadID).2 = am.heap.length ∧
      (GetThreadMemory am threadID).1.heap =
        am.heap ++ [NewConversationBuffer ("thread:" ++ threadID) false] ∧
      (GetThreadMemory am threadID).1.AgentMemory.map Prod.fst =
        am.AgentMemory.map Prod.fst ++ [threadID] ∧
      (∀ t, t ≠ threadID →
        mapGet (GetThreadMemory am threadID).1.AgentMemory t = mapGet am.AgentMemory t)) ∧
    mapGet (GetThreadMemory am threadID).1.AgentMemory threadID =
      some (GetThreadMemory am threadID).2 ∧
    GetThreadMemory (GetThreadMemory am threadID).1 threadID = GetThreadMemory am threadID ∧
    ((am.AgentMemory.map Prod.fst).Nodup →
      ((GetThreadMemory am threadID).1.AgentMemory.map Prod.fst).Nodup) := by
  refine ⟨GetThreadMemory_of_present am threadID, ?_, GetThreadMemory_registers am threadID,
    GetThreadMemory_idempotent am threadID, ?_⟩
  · intro h
    rw [GetThreadMemory_of_absent am threadID h]
    exact ⟨rfl, rfl, mapSet_keys_of_absent _ _ _ h,
      fun t ht => mapGet_mapSet_of_ne _ _ _ _ ht⟩
  · intro hnd
    cases h : mapGet am.AgentMemory threadID with
    | some mem => rw [GetThreadMemory_of_present am threadID mem h]; exact hnd
    | none =>
      rw [GetThreadMemory_of_absent am threadID h]
      show ((mapSet am.AgentMemory threadID am.heap.length).map Prod.fst).Nodup
      rw [mapSet_keys_of_absent _ _ _ h]
      refine List.Nodup.append hnd (List.nodup_singleton _) ?_
      intro x hx hx2
      rw [List.mem_singleton] at hx2
      subst hx2
      exact mapGet_none_not_mem _ _ h hx

/-! ## The write buffer -/

theorem appendChunks_length (now : Nat → String) (threadID userID orgID : String)
    (chunks : List String) :
    ∀ (k : Nat) (buf : List Document),
      (appendChunks now threadID userID orgID k buf chunks).length =
        buf.length + chunks.length := by
  induction chunks with
  | nil => intro k buf; simp [appendChunks]
  | cons c rest ih =>
    intro k buf
    simp only [appendChunks, ih, List.length_append, List.length_singleton, List.length_cons,
      List.length_nil]
    omega

theorem addToBuffer_eq (am : AgentManager) (now : Nat → String)
    (threadID input response userID orgID : String) :
    addToBuffer am now threadID input response userID orgID =
      .done ({ am with messageBuffer := (appendChunks now threadID userID orgID 0
                am.messageBuffer (turnChunks input response)) },
        decide (((appendChunks now threadID userID orgID 0 am.messageBuffer
          (turnChunks input response)).length : Int) ≥ am.maxBufferMessages)) := by
  have h := ChunkContent_eq (input ++ "\n" ++ response) 300 (by decide)
    (wordCount (input ++ "\n" ++ response) + 1) (by omega)
  simp only [Nat.cast_ofNat] at h
  unfold addToBuffer turnChunks
  simp only [h]

/-- C9 (as amended): `addToBuffer` always returns, and it triggers a flush
exactly when the pending size after the call is at least
`maxBufferMessages`, whatever the size was before the call; the pending
size never shrinks, so a call made with the pending size already at the
threshold triggers a flush too. -/
theorem addToBuffer_flush_iff (am : AgentManager) (now : Nat → String)
    (threadID input response userID orgID : String) :
    ∃ (am1 : AgentManager) (flushTriggered : Bool),
      addToBuffer am now threadID input response userID orgID = .done (am1, flushTriggered) ∧
      am1.maxBufferMessages = am.maxBufferMessages ∧
      am.messageBuffer.length ≤ am1.messageBuffer.length ∧
      (flushTriggered = true ↔ am.maxBufferMessages ≤ (am1.messageBuffer.length : Int)) ∧
      (am.maxBufferMessages ≤ (am.messageBuffer.length : Int) → flushTriggered = true) := by
  have hlen : am.messageBuffer.length ≤ (appendChunks now threadID userID orgID 0
      am.messageBuffer (turnChunks input response)).length := by
    rw [appendChunks_length]
    omega
  refine ⟨_, _, addToBuffer_eq am now threadID input response userID orgID, rfl, hlen,
    decide_eq_true_iff, ?_⟩
  intro hN
  apply decide_eq_true_iff.mpr
  show am.maxBufferMessages ≤ ((appendChunks now threadID userID orgID 0
      am.messageBuffer (turnChunks input response)).length : Int)
  omega

/-- C9 (as stated) fails: with threshold 1 and one document already
pending, a call triggers a flush although the pending size was not below
the threshold before the call. -/
theorem addToBuffer_flush_without_crossing :
    addToBuffer exampleManager (fun _ => "2024-01-01T00:00:00Z") "t1" "hi" "hello" "u1" "acme" =
      .done ({ exampleManager with messageBuffer := exampleManager.messageBuffer ++
          [conversationDoc "t1" "u1" "acme" "2024-01-01T00:00:00Z" "hi hello"] }, true) ∧
    ¬ (true = true ↔
        ((exampleManager.messageBuffer.length : Int) < exampleManager.maxBufferMessages ∧
          exampleManager.maxBufferMessages ≤
            ((exampleManager.messageBuffer ++
              [conversationDoc "t1" "u1" "acme" "2024-01-01T00:00:00Z" "hi hello"]).length :
                Int))) := by
  refine ⟨rfl, ?_⟩
  decide

/-! ## The query driver -/

theorem threadHistory_GetThreadMemory (am : AgentManager) (threadID : String) :
    threadHistory (GetThreadMemory am threadID).1 threadID = threadHistory am threadID := by
  unfold threadHistory
  rw [GetThreadMemory_idempotent]

/-- C1: when `Query` returns an error, the history of the thread and the
pending write buffer are what they were before the call, no flush is
triggered and the response is empty. -/
theorem Query_error_keeps_memory_and_buffer (am : AgentManager) (now : Nat → String)
    (userID orgID threadID input : String) (r : QueryResult)
    (hq : Query am now userID orgID threadID input = .done r) (herr : r.err ≠ none) :
    threadHistory r.am threadID = threadHistory am threadID ∧
    r.am.messageBuffer = am.messageBuffer ∧
    r.flushTriggered = false ∧
    r.response = "" := by
  have hkeep : ∀ resp e, r = ⟨(GetThreadMemory am threadID).1, resp, e, false⟩ → resp = "" →
      threadHistory r.am threadID = threadHistory am threadID ∧
      r.am.messageBuffer = am.messageBuffer ∧ r.flushTriggered = false ∧ r.response = "" := by
    intro resp e hr hresp
    subst hr
    exact ⟨threadHistory_GetThreadMemory am threadID,
      (GetThreadMemory_messageBuffer am threadID).1, rfl, hresp⟩
  unfold Query at hq
  simp only at hq
  split at hq
  · exact hkeep _ _ (Res.done.inj hq).symm rfl
  · split at hq
    · exact hkeep _ _ (Res.done.inj hq).symm rfl
    · split at hq
      · exact absurd hq (by simp)
      · split at hq
        · exact hkeep _ _ (Res.done.inj hq).symm rfl
        · split at hq
          · exact absurd hq (by simp)
          · split at hq
            · have := Res.done.inj hq
              subst this
              exact absurd rfl herr
            · exact absurd hq (by simp)
            · exact absurd hq (by simp)

theorem Query_error_keeps_memory_and_buffer_witness :
    (Query exampleManager (fun _ => "2024-01-01T00:00:00Z") "u1" "acme" "t1" "hi" =
        .done ⟨(GetThreadMemory exampleManager "t1").1, "",
          some (.wrap "failed to execute LLMChain: " (.new "context canceled")), false⟩ ∧
      (some (GoError.wrap "failed to execute LLMChain: " (.new "context canceled")) ≠ none)) ∧
    (threadHistory (GetThreadMemory exampleManager "t1").1 "t1" =
        threadHistory exampleManager "t1" ∧
      (GetThreadMemory exampleManager "t1").1.messageBuffer = exampleManager.messageBuffer ∧
      false = false ∧ "" = "") :=
  ⟨⟨rfl, by decide⟩,
    Query_error_keeps_memory_and_buffer exampleManager (fun _ => "2024-01-01T00:00:00Z")
      "u1" "acme" "t1" "hi"
      ⟨(GetThreadMemory exampleManager "t1").1, "",
        some (.wrap "failed to execute LLMChain: " (.new "context canceled")), false⟩
      rfl (by decide)⟩

theorem concatStrings_append (l₁ l₂ : List String) :
    concatStrings (l₁ ++ l₂) = concatStrings l₁ ++ concatStrings l₂ := by
  induction l₁ with
  | nil => simp [concatStrings]
  | cons a t ih => simp [concatStrings, ih, String.append_assoc]

theorem foldl_renderDoc (docs : List Document) :
    ∀ buf : String, docs.foldl (fun buf doc => buf ++ renderDoc doc) buf =
      buf ++ concatStrings (docs.map renderDoc) := by
  induction docs with
  | nil => intro buf; simp [concatStrings]
  | cons d rest ih =>
    intro buf
    simp [List.foldl_cons, ih, concatStrings, String.append_assoc]

theorem docContext_merge (orgDocs defaultDocs : List Document) :
    docContext (combineResults orgDocs defaultDocs) =
      if orgDocs = [] ∧ defaultDocs = [] then "No relevant documents found.\n"
      else concatStrings (orgDocs.map renderDoc) ++ concatStrings (defaultDocs.map renderDoc) := by
  unfold docContext combineResults
  by_cases h : orgDocs = [] ∧ defaultDocs = []
  · obtain ⟨h1, h2⟩ := h
    subst h1 h2
    simp
  · have hlen : (orgDocs ++ defaultDocs).length > 0 := by
      apply List.length_pos.mpr
      intro hnil
      exact h (List.append_eq_nil.mp hnil)
    rw [if_pos hlen, if_neg h, foldl_renderDoc, List.map_append, concatStrings_append]
    simp

theorem llmContext_context (history : List ChatMessage)
    (orgDocs defaultDocs : List Document) (input : String) :
    llmContext history (combineResults orgDocs defaultDocs) input =
      "History:\n" ++ fmtMessages (formatMessages history) ++ "\n\nRelevant Documents:\n" ++
        (if orgDocs = [] ∧ defaultDocs = [] then "No relevant documents found.\n"
          else concatStrings (orgDocs.map renderDoc) ++
            concatStrings (defaultDocs.map renderDoc)) ++
        "\n\nUser Input:\n" ++ input := by
  unfold llmContext
  rw [docContext_merge]

/-- The context of a query: the rendering of two result lists combined as
`Query` combines them is the first list in order followed by the second in
order; `[A, B]` and `[C, D]` are rendered as A, B, C, D. -/
theorem llmContext_merge_order (history : List ChatMessage)
    (orgDocs defaultDocs : List Document) (input : String) :
    llmContext history (combineResults orgDocs defaultDocs) input =
      "History:\n" ++ fmtMessages (formatMessages history) ++ "\n\nRelevant Documents:\n" ++
        (if orgDocs = [] ∧ defaultDocs = [] then "No relevant documents found.\n"
          else concatStrings (orgDocs.map renderDoc) ++
            concatStrings (defaultDocs.map renderDoc)) ++
        "\n\nUser Input:\n" ++ input ∧
    ∀ A B C D : Document,
      docContext (combineResults [A, B] [C, D]) =
        renderDoc A ++ (renderDoc B ++ (renderDoc C ++ renderDoc D)) := by
  refine ⟨?_, ?_⟩
  · unfold llmContext
    rw [docContext_merge]
  · intro A B C D
    rw [docContext_merge]
    simp [concatStrings, String.append_assoc]

/-- C2: in `Query`, the chain is called with the context whose document
part is the results of the search in the tenant namespace `orgID`, in their
returned order, followed by the results of the search in the default
namespace, in their returned order, each rendered as
`Document: <content>`, `Metadata: <metadata>` (the marker line when both
searches return nothing): what `Query` returns is decided by the outcome of
the chain on exactly that context. -/
theorem Query_context_merge_order (am : AgentManager) (now : Nat → String)
    (userID orgID threadID input : String) (orgDocs defaultDocs : List Document)
    (orgErr defaultErr : Option GoError) (buf : ConversationBuffer) (context : String)
    (horg : am.VectorStore.search input 5 (some orgID) = (orgDocs, orgErr))
    (horgErr : orgErr = none ∨ orgErr.map GoError.Error = some "empty response")
    (hdef : am.VectorStore.search input 5 none = (defaultDocs, defaultErr))
    (hdefErr : defaultErr = none ∨ defaultErr.map GoError.Error = some "empty response")
    (hbuf : (GetThreadMemory am threadID).1.heap.get? (GetThreadMemory am threadID).2 =
      some buf)
    (hcontext : context =
      "History:\n" ++ fmtMessages (formatMessages buf.ChatHistory) ++
        "\n\nRelevant Documents:\n" ++
        (if orgDocs = [] ∧ defaultDocs = [] then "No relevant documents found.\n"
          else
            concatStrings (orgDocs.map (fun doc =>
              "Document: " ++ doc.PageContent ++ "\nMetadata: " ++
                fmtMetadata doc.Metadata ++ "\n")) ++
            concatStrings (defaultDocs.map (fun doc =>
              "Document: " ++ doc.PageContent ++ "\nMetadata: " ++
                fmtMetadata doc.Metadata ++ "\n"))) ++
        "\n\nUser Input:\n" ++ input) :
    (∀ e, am.LLMChain context = .error e →
      Query am now userID orgID threadID input =
        .done ⟨(GetThreadMemory am threadID).1, "",
          some (.wrap "failed to execute LLMChain: " e), false⟩) ∧
    (∀ chainOutputs fullResponse, am.LLMChain context = .ok chainOutputs →
      (mapGet chainOutputs "text").bind AnyVal.asString = some fullResponse →
      ∃ r : QueryResult, Query am now userID orgID threadID input = .done r ∧
        r.response = fullResponse ∧ r.err = none) := by
  have hctx : llmContext buf.ChatHistory (combineResults orgDocs defaultDocs) input =
      context := by
    rw [hcontext, (llmContext_context buf.ChatHistory orgDocs defaultDocs input)]
    rfl
  obtain ⟨_, _, hvs, hllm⟩ := GetThreadMemory_messageBuffer am threadID
  have hc1 : ¬ (orgErr.isSome = true ∧ orgErr.map GoError.Error ≠ some "empty response") := by
    rintro ⟨h1, h2⟩
    rcases horgErr with h | h
    · rw [h] at h1; simp at h1
    · exact h2 h
  have hc2 : ¬ (defaultErr.isSome = true ∧
      defaultErr.map GoError.Error ≠ some "empty response") := by
    rintro ⟨h1, h2⟩
    rcases hdefErr with h | h
    · rw [h] at h1; simp at h1
    · exact h2 h
  constructor
  · intro e he
    unfold Query
    simp only [hvs, hllm, horg, hdef, hc1, hc2, if_false, hbuf, hctx, he]
  · intro chainOutputs fullResponse hout htext
    unfold Query
    simp only [hvs, hllm, horg, hdef, hc1, hc2, if_false, hbuf, hctx, hout, htext,
      addToBuffer_eq]
    exact ⟨_, rfl, rfl, rfl⟩

theorem Query_context_merge_order_witness :
    (exampleMergeManager.VectorStore.search "hi" 5 (some "acme") =
        ([⟨"A", some [("org_id", .str "acme")]⟩, ⟨"B", none⟩], none) ∧
      exampleMergeManager.VectorStore.search "hi" 5 none =
        ([⟨"C", some []⟩, ⟨"D", none⟩], some (.new "empty response")) ∧
      (GetThreadMemory exampleMergeManager "t1").1.heap.get?
          (GetThreadMemory exampleMergeManager "t1").2 =
        some ⟨"thread:t1", false, []⟩ ∧
      exampleMergeManager.LLMChain
          ("History:\n[]\n\nRelevant Documents:\n" ++
            "Document: A\nMetadata: map[org_id:acme]\nDocument: B\nMetadata: map[]\n" ++
            "Document: C\nMetadata: map[]\nDocument: D\nMetadata: map[]\n" ++
            "\n\nUser Input:\nhi") =
        .ok [("text", .str
          ("History:\n[]\n\nRelevant Documents:\n" ++
            "Document: A\nMetadata: map[org_id:acme]\nDocument: B\nMetadata: map[]\n" ++
            "Document: C\nMetadata: map[]\nDocument: D\nMetadata: map[]\n" ++
            "\n\nUser Input:\nhi"))]) ∧
    ∃ r : QueryResult,
      Query exampleMergeManager (fun _ => "2024-01-01T00:00:00Z") "u1" "acme" "t1" "hi" =
        .done r ∧
      r.response =
        "History:\n[]\n\nRelevant Documents:\n" ++
          "Document: A\nMetadata: map[org_id:acme]\nDocument: B\nMetadata: map[]\n" ++
          "Document: C\nMetadata: map[]\nDocument: D\nMetadata: map[]\n" ++
          "\n\nUser Input:\nhi" ∧
      r.err = none :=
  ⟨⟨rfl, rfl, rfl, rfl⟩,
    (Query_context_merge_order exampleMergeManager (fun _ => "2024-01-01T00:00:00Z")
      "u1" "acme" "t1" "hi"
      [⟨"A", some [("org_id", .str "acme")]⟩, ⟨"B", none⟩] [⟨"C", some []⟩, ⟨"D", none⟩]
      none (some (.new "empty response")) ⟨"thread:t1", false, []⟩
      ("History:\n[]\n\nRelevant Documents:\n" ++
        "Document: A\nMetadata: map[org_id:acme]\nDocument: B\nMetadata: map[]\n" ++
        "Document: C\nMetadata: map[]\nDocument: D\nMetadata: map[]\n" ++
        "\n\nUser Input:\nhi")
      rfl (Or.inl rfl) rfl (Or.inr rfl) rfl rfl).2 _ _ rfl rfl⟩

/-! ## Reading a thread's history -/

theorem foldl_append_singleton {α β : Type} (f : α → β) (l : List α) :
    ∀ init : List β, l.foldl (fun acc x => acc ++ [f x]) init = init ++ l.map f := by
  induction l with
  | nil => intro init; simp
  | cons a t ih => intro init; simp [List.foldl_cons, ih]

theorem formatMessages_eq_map (messages : List ChatMessage) :
    formatMessages messages =
      messages.map (fun msg =>
        [("role", if msg.msgType = .AI then "ai" else "user"), ("content", msg.content)]) := by
  unfold formatMessages
  have := foldl_append_singleton (fun msg : ChatMessage =>
    ([("role", if msg.msgType = .AI then "ai" else "user"), ("content", msg.content)] :
      GoMap String)) messages []
  simpa using this

/-- C11 (as amended): `RetrieveMemory` returns, without error, one
role/content pair per stored message of the thread, in the same order and
with the content unchanged; the role is `"ai"` for a message of type AI and
`"user"` for every other message. -/
theorem RetrieveMemory_pairs (am : AgentManager) (threadID : String)
    (buf : ConversationBuffer)
    (hbuf : (GetThreadMemory am threadID).1.heap.get? (GetThreadMemory am threadID).2 =
      some buf) :
    RetrieveMemory am threadID =
      .done ((GetThreadMemory am threadID).1, formatMessages buf.ChatHistory, none) ∧
    buf.ChatHistory = threadHistory am threadID ∧
    (formatMessages buf.ChatHistory).length = buf.ChatHistory.length ∧
    (∀ (k : Nat) (msg : ChatMessage), buf.ChatHistory[k]? = some msg →
      (formatMessages buf.ChatHistory)[k]? =
        some [("role", if msg.msgType = .AI then "ai" else "user"),
          ("content", msg.content)]) := by
  refine ⟨?_, ?_, ?_, ?_⟩
  · unfold RetrieveMemory
    simp only [hbuf]
  · unfold threadHistory
    simp only [hbuf]
  · rw [formatMessages_eq_map, List.length_map]
  · intro k msg hk
    rw [formatMessages_eq_map, List.getElem?_map, hk]
    rfl

/-- C11 (as stated) fails: the pair returned for a message of type AI has
the role `"ai"`, which is neither `"user"` nor `"assistant"`. -/
theorem RetrieveMemory_role_not_assistant :
    RetrieveMemory exampleChatManager "t1" =
      .done (exampleChatManager,
        [[("role", "user"), ("content", "hi")], [("role", "ai"), ("content", "hello")]],
        none) ∧
    ¬ (mapGet [("role", "ai"), ("content", "hello")] "role" = some "user" ∨
        mapGet [("role", "ai"), ("content", "hello")] "role" = some "assistant") := by
  refine ⟨rfl, ?_⟩
  decide

theorem RetrieveMemory_pairs_witness :
    (GetThreadMemory exampleChatManager "t1").1.heap.get?
        (GetThreadMemory exampleChatManager "t1").2 =
      some ⟨"thread:t1", false, [⟨.Human, "hi"⟩, ⟨.AI, "hello"⟩]⟩ ∧
    (RetrieveMemory exampleChatManager "t1" =
      .done ((GetThreadMemory exampleChatManager "t1").1,
        formatMessages [⟨.Human, "hi"⟩, ⟨.AI, "hello"⟩], none) ∧
    [⟨.Human, "hi"⟩, ⟨.AI, "hello"⟩] = threadHistory exampleChatManager "t1" ∧
    (formatMessages [⟨.Human, "hi"⟩, ⟨.AI, "hello"⟩]).length =
      ([⟨.Human, "hi"⟩, ⟨.AI, "hello"⟩] : List ChatMessage).length ∧
    (∀ (k : Nat) (msg : ChatMessage),
      ([⟨.Human, "hi"⟩, ⟨.AI, "hello"⟩] : List ChatMessage)[k]? = some msg →
      (formatMessages [⟨.Human, "hi"⟩, ⟨.AI, "hello"⟩])[k]? =
        some [("role", if msg.msgType = .AI then "ai" else "user"),
          ("content", msg.content)])) :=
  ⟨rfl, RetrieveMemory_pairs exampleChatManager "t1"
    ⟨"thread:t1", false, [⟨.Human, "hi"⟩, ⟨.AI, "hello"⟩]⟩ rfl⟩

/-! ## Syncing and flushing the buffer -/

/-- C12: with an empty pending buffer `SyncMemory` returns `nil` and makes
no store call; otherwise it makes exactly one batch-add of the whole
pending buffer, in order, without a namespace option, returns the error of
that add, empties the buffer when the add succeeds and leaves it unchanged
when the add fails. -/
theorem SyncMemory_sync (am : AgentManager) :
    (am.messageBuffer = [] → SyncMemory am = (am, none)) ∧
    (am.messageBuffer ≠ [] →
      (SyncMemory am).1.VectorStore.addCalls =
        am.VectorStore.addCalls ++ [⟨am.messageBuffer, none⟩] ∧
      (SyncMemory am).2 = nextOutcome am 0 ∧
      (nextOutcome am 0 = none → (SyncMemory am).1.messageBuffer = []) ∧
      (nextOutcome am 0 ≠ none → (SyncMemory am).1.messageBuffer = am.messageBuffer)) ∧
    (SyncMemory am).1.AgentMemory = am.AgentMemory ∧
    (SyncMemory am).1.heap = am.heap ∧
    (SyncMemory am).1.maxBufferMessages = am.maxBufferMessages := by
  unfold nextOutcome
  by_cases hb : am.messageBuffer = []
  · have h0 : am.messageBuffer.length = 0 := by rw [hb]; rfl
    simp [SyncMemory, h0, hb]
  · have h0 : ¬ am.messageBuffer.length = 0 := fun h => hb (List.length_eq_zero.mp h)
    rcases ho : am.VectorStore.addOutcome am.VectorStore.addCalls.length with _ | e
    · simp [SyncMemory, h0, hb, VectorStore.AddDocuments, ho]
    · simp [SyncMemory, h0, hb, VectorStore.AddDocuments, ho]

theorem deduplicateDocuments_eq_firstOccurrences (docs : List Document) :
    deduplicateDocuments docs = firstOccurrences [] docs := by
  unfold deduplicateDocuments
  rw [dedupLoop_eq docs [] [] [] (by intro c; simp [mapGet])]
  simp

theorem deduplicateDocuments_cons (d : Document) (rest : List Document) :
    deduplicateDocuments (d :: rest) = d :: firstOccurrences [d] rest := by
  rw [deduplicateDocuments_eq_firstOccurrences (d :: rest)]
  simp [firstOccurrences]

/-- C14: `flushBufferToWeaviate` always leaves the pending buffer empty.
For an empty buffer it makes no store call; for a buffer whose first
document carries the string `org_id` it makes exactly one batch-add, of
`deduplicateDocuments(pending)` under that `org_id`, whatever the outcome
of the add. -/
theorem flushBufferToWeaviate_drains (am : AgentManager) (first : Document)
    (rest : List Document) (orgID : String)
    (hbuf : am.messageBuffer = first :: rest) (horg : orgIDOf first = some orgID) :
    (flushBufferToWeaviate am).messageBuffer = [] ∧
    (flushBufferToWeaviate am).VectorStore.addCalls =
      am.VectorStore.addCalls ++ [⟨deduplicateDocuments am.messageBuffer, some orgID⟩] ∧
    (∀ am0 : AgentManager, (flushBufferToWeaviate am0).messageBuffer = []) ∧
    (∀ am0 : AgentManager, am0.messageBuffer = [] →
      (flushBufferToWeaviate am0).VectorStore.addCalls = am0.VectorStore.addCalls) ∧
    (flushBufferToWeaviate am).AgentMemory = am.AgentMemory ∧
    (flushBufferToWeaviate am).heap = am.heap := by
  have hall : ∀ am0 : AgentManager, (flushBufferToWeaviate am0).messageBuffer = [] := by
    intro am0
    unfold flushBufferToWeaviate
    simp only
    split
    · rfl
    · split
      · rfl
      · split <;> rfl
  have hempty : ∀ am0 : AgentManager, am0.messageBuffer = [] →
      (flushBufferToWeaviate am0).VectorStore.addCalls = am0.VectorStore.addCalls := by
    intro am0 h0
    unfold flushBufferToWeaviate
    simp [h0]
  have hd := deduplicateDocuments_cons first rest
  refine ⟨hall am, ?_, hall, hempty, ?_, ?_⟩
  · unfold flushBufferToWeaviate
    simp [hbuf, hd, horg, VectorStore.AddDocuments]
  · unfold flushBufferToWeaviate
    simp [hbuf, hd, horg]
  · unfold flushBufferToWeaviate
    simp [hbuf, hd, horg]

theorem flushBufferToWeaviate_drains_witness :
    (exampleChatManager.messageBuffer =
        conversationDoc "t1" "u1" "acme" "2024-01-01T00:00:00Z" "hi hello" ::
          [conversationDoc "t1" "u1" "acme" "2024-01-01T00:00:05Z" "hi hello"] ∧
      orgIDOf (conversationDoc "t1" "u1" "acme" "2024-01-01T00:00:00Z" "hi hello") =
        some "acme") ∧
    ((flushBufferToWeaviate exampleChatManager).messageBuffer = [] ∧
    (flushBufferToWeaviate exampleChatManager).VectorStore.addCalls =
      exampleChatManager.VectorStore.addCalls ++
        [⟨deduplicateDocuments exampleChatManager.messageBuffer, some "acme"⟩] ∧
    (∀ am0 : AgentManager, (flushBufferToWeaviate am0).messageBuffer = []) ∧
    (∀ am0 : AgentManager, am0.messageBuffer = [] →
      (flushBufferToWeaviate am0).VectorStore.addCalls = am0.VectorStore.addCalls) ∧
    (flushBufferToWeaviate exampleChatManager).AgentMemory = exampleChatManager.AgentMemory ∧
    (flushBufferToWeaviate exampleChatManager).heap = exampleChatManager.heap) :=
  ⟨⟨rfl, by decide⟩,
    flushBufferToWeaviate_drains exampleChatManager
      (conversationDoc "t1" "u1" "acme" "2024-01-01T00:00:00Z" "hi hello")
      [conversationDoc "t1" "u1" "acme" "2024-01-01T00:00:05Z" "hi hello"] "acme" rfl
      (by decide)⟩

/-! ## What `addToBuffer` appends -/

theorem orgIDOf_conversationDoc (threadID userID orgID timestamp chunk : String) :
    orgIDOf (conversationDoc threadID userID orgID timestamp chunk) = some orgID := by
  have h1 : ¬ ("thread_id" = "org_id") := by decide
  have h2 : ¬ ("user_id" = "org_id") := by decide
  simp [orgIDOf, conversationDoc, mapGet, h1, h2, AnyVal.asString]

theorem appendChunks_eq (now : Nat → String) (threadID userID orgID : String)
    (chunks : List String) :
    ∀ (k : Nat) (buf : List Document),
      appendChunks now threadID userID orgID k buf chunks =
        buf ++ (chunks.enumFrom k).map
          (fun kc => conversationDoc threadID userID orgID (now kc.1) kc.2) := by
  induction chunks with
  | nil => intro k buf; simp [appendChunks]
  | cons c rest ih =>
    intro k buf
    simp [appendChunks, ih, List.enumFrom_cons]

theorem addToBuffer_PendingTagged (am am1 : AgentManager) (now : Nat → String)
    (threadID input response userID orgID : String) (flushTriggered : Bool)
    (h : addToBuffer am now threadID input response userID orgID = .done (am1, flushTriggered))
    (hp : PendingTagged am) : PendingTagged am1 := by
  rw [addToBuffer_eq] at h
  have h1 := (Prod.mk.inj (Res.done.inj h)).1
  subst h1
  intro d hd
  simp only [appendChunks_eq] at hd
  rcases List.mem_append.mp hd with hd | hd
  · exact hp d hd
  · obtain ⟨kc, _, rfl⟩ := List.mem_map.mp hd
    exact ⟨orgID, orgIDOf_conversationDoc _ _ _ _ _⟩

/-- C13: `addToBuffer` keeps the pending documents as a prefix and appends
after them one document per chunk of `ChunkContent(input + "\n" + response,
300)`, in chunk order, with the chunk as content and the metadata
`thread_id`, `user_id`, `org_id`, `timestamp` (a reading of the clock) and
`source = "conversation"`; the buffer grows by `ceil(w / 300)` documents,
`w` being the number of words of `input + "\n" + response`. -/
theorem addToBuffer_appends (am : AgentManager) (now : Nat → String)
    (threadID input response userID orgID : String) :
    ∃ (chunks : List String) (am1 : AgentManager) (flushTriggered : Bool),
      (∀ fuel, wordCount (input ++ "\n" ++ response) < fuel →
        ChunkContent fuel (input ++ "\n" ++ response) 300 = .done chunks) ∧
      addToBuffer am now threadID input response userID orgID = .done (am1, flushTriggered) ∧
      am1.messageBuffer = am.messageBuffer ++ chunks.enum.map
        (fun kc => conversationDoc threadID userID orgID (now kc.1) kc.2) ∧
      (∀ (k : Nat) (chunk : String), chunks[k]? = some chunk →
        am1.messageBuffer[am.messageBuffer.length + k]? =
          some ⟨chunk, some [("thread_id", .str threadID), ("user_id", .str userID),
            ("org_id", .str orgID), ("timestamp", .str (now k)),
            ("source", .str "conversation")]⟩) ∧
      (am1.messageBuffer.length : Int) = (am.messageBuffer.length : Int) +
        ⌈((wordCount (input ++ "\n" ++ response) : ℚ) / 300)⌉ := by
  have hc : ∀ fuel, wordCount (input ++ "\n" ++ response) < fuel →
      ChunkContent fuel (input ++ "\n" ++ response) 300 =
        .done (turnChunks input response) := by
    intro fuel hfuel
    have h := ChunkContent_eq (input ++ "\n" ++ response) 300 (by decide) fuel hfuel
    simpa [turnChunks] using h
  refine ⟨turnChunks input response, _, _, hc,
    addToBuffer_eq am now threadID input response userID orgID, ?_, ?_, ?_⟩
  · show appendChunks now threadID userID orgID 0 am.messageBuffer
      (turnChunks input response) = _
    rw [appendChunks_eq]
    rfl
  · intro k chunk hk
    show (appendChunks now threadID userID orgID 0 am.messageBuffer
      (turnChunks input response))[am.messageBuffer.length + k]? = _
    rw [appendChunks_eq, List.getElem?_append_right (by omega)]
    simp only [Nat.add_sub_cancel_left, List.getElem?_map, List.getElem?_enumFrom, hk,
      Option.map_some', Nat.zero_add]
    rfl
  · show ((appendChunks now threadID userID orgID 0 am.messageBuffer
      (turnChunks input response)).length : Int) = _
    rw [appendChunks_length]
    have hlen : (turnChunks input response).length =
        (wordCount (input ++ "\n" ++ response) + 300 - 1) / 300 := by
      unfold turnChunks
      rw [List.length_map, wordGroups_length 300 (by decide)]
      rfl
    have hceil := ceil_div_eq (wordCount (input ++ "\n" ++ response)) 300 (by decide)
    simp only [Nat.cast_ofNat] at hceil
    rw [hceil, hlen]
    push_cast
    rfl

/-! ## Locks and blocking calls -/

theorem SyncMemoryEvents_storeWrites (am : AgentManager) :
    (SyncMemory am).1.VectorStore.addCalls.length =
      am.VectorStore.addCalls.length + (SyncMemoryEvents am).count .storeWrite := by
  by_cases h0 : am.messageBuffer.length = 0
  · simp [SyncMemory, SyncMemoryEvents, h0]
  · rcases ho : am.VectorStore.addOutcome am.VectorStore.addCalls.length with _ | e
    · simp [SyncMemory, SyncMemoryEvents, h0, VectorStore.AddDocuments, ho]
    · simp [SyncMemory, SyncMemoryEvents, h0, VectorStore.AddDocuments, ho]

theorem flushBufferToWeaviateEvents_storeWrites (am : AgentManager) :
    (flushBufferToWeaviate am).VectorStore.addCalls.length =
      am.VectorStore.addCalls.length + (flushBufferToWeaviateEvents am).count .storeWrite := by
  unfold flushBufferToWeaviate flushBufferToWeaviateEvents
  by_cases h0 : am.messageBuffer.length = 0
  · simp [h0]
  · simp only [h0, if_false]
    cases hd : deduplicateDocuments am.messageBuffer with
    | nil => simp
    | cons first rest =>
      cases horg : orgIDOf first with
      | none => simp [horg]
      | some orgID => simp [horg, VectorStore.AddDocuments]

/-- C15: `GetThreadMemory`, `addToBuffer` and `flushBufferToWeaviate` make no
blocking call while they hold a mutex, but `SyncMemory` does: it keeps the
"no blocking call under a lock" rule only when the pending buffer is empty,
and with pending documents its vector-store write happens between the
`Lock` and the deferred `Unlock` of the buffer mutex. -/
theorem SyncMemory_writes_under_lock :
    (∀ (am : AgentManager) (threadID : String),
      noIOWhileLocked [] (GetThreadMemoryEvents am threadID) = true) ∧
    (∀ (am : AgentManager) (now : Nat → String)
        (threadID input response userID orgID : String),
      noIOWhileLocked []
        (addToBufferEvents am now threadID input response userID orgID) = true) ∧
    (∀ am : AgentManager, noIOWhileLocked [] (flushBufferToWeaviateEvents am) = true) ∧
    (∀ am : AgentManager,
      noIOWhileLocked [] (SyncMemoryEvents am) = true ↔ am.messageBuffer = []) ∧
    SyncMemoryEvents exampleChatManager =
      [.lock .bufferMutex, .storeWrite, .unlock .bufferMutex] ∧
    noIOWhileLocked [] (SyncMemoryEvents exampleChatManager) = false := by
  refine ⟨fun _ _ => rfl, ?_, ?_, ?_, rfl, rfl⟩
  · intro am now threadID input response userID orgID
    unfold addToBufferEvents
    split <;> rfl
  · intro am
    unfold flushBufferToWeaviateEvents
    by_cases h0 : am.messageBuffer.length = 0
    · simp [h0, noIOWhileLocked]
    · simp only [h0, if_false]
      cases hd : deduplicateDocuments am.messageBuffer with
      | nil => rfl
      | cons first rest =>
        cases horg : orgIDOf first with
        | none => simp only [horg]; rfl
        | some orgID => simp only [horg]; rfl
  · intro am
    unfold SyncMemoryEvents
    by_cases hb : am.messageBuffer = []
    · have h0 : am.messageBuffer.length = 0 := by rw [hb]; rfl
      simp [h0, hb, noIOWhileLocked]
    · have h0 : ¬ am.messageBuffer.length = 0 := fun h => hb (List.length_eq_zero.mp h)
      simp [h0, hb, noIOWhileLocked]

end ConversationalAgent
